import Mathlib

/-!
# Coulomb law toy simulation: particle engine of `src/main.cpp`

The program keeps a vector of dots (charge, position, velocity, acceleration)
and, once per frame, handles the mouse events, places a pending dot, runs the
pairwise force loop and finally draws the dots, erasing those that left the
window by more than 200 units.

Scalars, first layer (`section Engine`): the C++ `float` is idealised as an
arbitrary linearly ordered field `F` (exact arithmetic, no rounding, no
infinities, no NaN; a division by zero follows the field convention
`x / 0 = 0`).  This layer carries the results that rest on comparisons, list
operations and values that a 32-bit float holds exactly.

Scalars, second layer (`section IeeeEngine`): the same code over `FloatVal F`,
a finite number, plus or minus infinity, or NaN, with the IEEE 754 rules for
the special values (0 / 0, infinity times 0, infinity minus infinity are NaN,
a comparison with NaN is false).  Finite results are exact here too: rounding
and the overflow of a finite result are not modelled, so statements about
finite values carry explicit bounds that keep the 32-bit computation finite.
On finite values with a non-zero extent the two layers agree
(`ieee_integrate_lift`).

The library function `sqrt` is not part of the repository, so it is a parameter
`sqrt : F → F` of every definition that calls it; results that need its meaning
assume `IsSqrt sqrt`, which `Real.sqrt` satisfies on `ℝ`.  Values handed over by
the GUI library (`GetCursorPos`, `GetWindowContentRegionMin`,
`GetWindowContentRegionMax`) are parameters too.
-/

namespace Coulomb

/-! ## Data model -/

/-- Two floats, as `ImVec2` of the GUI library. -/
structure ImVec2 (F : Type) where
  x : F
  y : F
deriving DecidableEq

/-- The record `dot_t` of `main.cpp` lines 48-54. -/
structure dot_t (F : Type) where
  value : F
  position : ImVec2 F
  velocity : ImVec2 F
  acceleration : ImVec2 F
deriving DecidableEq

/-- The global variables of `main.cpp` that the engine reads and writes. -/
structure SimState (F : Type) where
  dots : List (dot_t F)
  simulationConstant : F
  isAddingNewDot : Bool
  isPlacingNewDot : Bool
  newDotValue : F
  mousePos : ImVec2 F

/-- The mouse events the event loop of `main` reacts to (lines 138-171). -/
inductive MouseEvent (F : Type) where
  | motion (x y : F)
  | leftDown
  | rightDown

section Engine

variable {F : Type} [LinearOrderedField F]

/-- `SIM_DOT_RADIUS` (line 41). -/
def SIM_DOT_RADIUS : F := 10

/-! ## Vector operators (lines 353-395) -/

/-- `operator+(a, b)`. -/
def ImVec2.add (a b : ImVec2 F) : ImVec2 F := ⟨a.x + b.x, a.y + b.y⟩

/-- Unary `operator-(a)`. -/
def ImVec2.neg (a : ImVec2 F) : ImVec2 F := ⟨-a.x, -a.y⟩

/-- Binary `operator-(a, b)`, which is `a + (-b)`. -/
def ImVec2.sub (a b : ImVec2 F) : ImVec2 F := ImVec2.add a (ImVec2.neg b)

/-- `operator*=(a, c)`: the new value of `a`. -/
def ImVec2.mulAssign (a : ImVec2 F) (c : F) : ImVec2 F := ⟨a.x * c, a.y * c⟩

/-- `operator/=(a, b)`: the new value of `a` (component-wise division). -/
def ImVec2.divAssign (a b : ImVec2 F) : ImVec2 F := ⟨a.x / b.x, a.y / b.y⟩

/-- `operator+=(a, b)`: the new value of `a`. -/
def ImVec2.addAssign (a b : ImVec2 F) : ImVec2 F := ⟨a.x + b.x, a.y + b.y⟩

/-- `operator-=(a, b)`: the new value of `a`, which is `a += (-b)`. -/
def ImVec2.subAssign (a b : ImVec2 F) : ImVec2 F := ImVec2.addAssign a (ImVec2.neg b)

/-- The expression `sqrt(v.x * v.x + v.y * v.y)` of lines 163 and 253. -/
def vecLength (sqrt : F → F) (v : ImVec2 F) : F := sqrt (v.x * v.x + v.y * v.y)

/-- What the engine needs of `sqrt`: on a non-negative argument it returns the
non-negative square root. -/
def IsSqrt (sqrt : F → F) : Prop := ∀ a : F, 0 ≤ a → 0 ≤ sqrt a ∧ sqrt a * sqrt a = a

/-- The temporary dot pushed before the main loop (line 124). -/
def placeholder : dot_t F := ⟨0, ⟨-50, -50⟩, ⟨0, 0⟩, ⟨0, 0⟩⟩

/-! ## Removing the dot under the pointer (lines 160-169) -/

/-- The test `r <= SIM_DOT_RADIUS` of the right-button handler for one dot. -/
def underPointer (sqrt : F → F) (mousePos : ImVec2 F) (d : dot_t F) : Prop :=
  vecLength sqrt (ImVec2.sub d.position mousePos) ≤ SIM_DOT_RADIUS

instance (sqrt : F → F) (mousePos : ImVec2 F) (d : dot_t F) :
    Decidable (underPointer sqrt mousePos d) :=
  inferInstanceAs (Decidable (_ ≤ _))

/-- The reverse-iterator loop of lines 160-169.  The argument `n` is the number
of dots the iterator has not visited yet, so the iterator refers to index
`n - 1`, and `n = 0` is `dots.rend()`.  `dots.erase(next(i).base())` erases
the element the reverse iterator `i` refers to. -/
def removeLoop (sqrt : F → F) (mousePos : ImVec2 F) (dots : List (dot_t F)) :
    Nat → List (dot_t F)
  | 0 => dots
  | n + 1 =>
    match dots[n]? with
    | some d =>
      if underPointer sqrt mousePos d then dots.eraseIdx n
      else removeLoop sqrt mousePos dots n
    | none => dots

/-- The whole loop, started at `dots.rbegin()`. -/
def removeNearest (sqrt : F → F) (mousePos : ImVec2 F) (dots : List (dot_t F)) :
    List (dot_t F) :=
  removeLoop sqrt mousePos dots dots.length

/-! ## Event handling (lines 138-171) -/

/-- One pass of the body of the `SDL_PollEvent` loop for a mouse event. -/
def handleEvent (sqrt : F → F) (s : SimState F) : MouseEvent F → SimState F
  | .motion x y => { s with mousePos := ⟨x, y⟩ }
  | .leftDown =>
    if s.isAddingNewDot then { s with isAddingNewDot := false, isPlacingNewDot := true }
    else s
  | .rightDown =>
    if s.isAddingNewDot then { s with isAddingNewDot := false, isPlacingNewDot := false }
    else { s with dots := removeNearest sqrt s.mousePos s.dots }

/-! ## Placing the pending dot (lines 236-244) -/

/-- The test of lines 238-239 (and 295-296, 307-308): strictly inside the
rectangle from `spaceStart` to `spaceEnd`. -/
def insideSpace (spaceStart spaceEnd p : ImVec2 F) : Prop :=
  p.x < spaceEnd.x ∧ p.y < spaceEnd.y ∧ p.x > spaceStart.x ∧ p.y > spaceStart.y

instance (spaceStart spaceEnd p : ImVec2 F) : Decidable (insideSpace spaceStart spaceEnd p) :=
  inferInstanceAs (Decidable (_ ∧ _ ∧ _ ∧ _))

/-- The block `if (isPlacingNewDot) ...` of lines 236-244. -/
def placementStep (spaceStart spaceEnd : ImVec2 F) (s : SimState F) : SimState F :=
  if s.isPlacingNewDot then
    if insideSpace spaceStart spaceEnd s.mousePos then
      { s with dots := s.dots ++ [⟨s.newDotValue, s.mousePos, ⟨0, 0⟩, ⟨0, 0⟩⟩],
               isPlacingNewDot := false }
    else { s with isPlacingNewDot := false }
  else s

/-! ## Force loop (lines 248-281) -/

/-- The value `coulombsForce` of line 261; `abs` is the absolute value of a
float. -/
def coulombsForce (simulationConstant qi qj r : F) : F :=
  simulationConstant * ((|qi| * |qj|) / r)

/-- The flag `isVecOrientMinus` of line 262. -/
def isVecOrientMinus (qi qj : F) : Prop :=
  (qi > 0 ∧ qj > 0) ∨ (qi < 0 ∧ qj < 0)

instance (qi qj : F) : Decidable (isVecOrientMinus qi qj) :=
  inferInstanceAs (Decidable (_ ∨ _))

/-- The vector added to `dots[i].acceleration` and subtracted from
`dots[j].acceleration`: `diffVector` after lines 264-269. -/
def pairVector (simulationConstant : F) (extent : ImVec2 F) (qi qj r : F)
    (diffVector : ImVec2 F) : ImVec2 F :=
  let scaled := ImVec2.divAssign
    (ImVec2.mulAssign diffVector (coulombsForce simulationConstant qi qj r)) extent
  if isVecOrientMinus qi qj then ImVec2.neg scaled else scaled

/-- The body of the inner loop (lines 252-279) for the pair `i`, `j`;
`extent` is `GetWindowContentRegionMax()`. -/
def pairStep (sqrt : F → F) (simulationConstant : F) (extent : ImVec2 F)
    (i j : Nat) (dots : List (dot_t F)) : List (dot_t F) :=
  match dots[i]?, dots[j]? with
  | some di, some dj =>
    let diffVector := ImVec2.sub dj.position di.position
    let r := vecLength sqrt diffVector
    if r ≤ 2 * SIM_DOT_RADIUS then
      (dots.set i { di with velocity := ⟨0, 0⟩ }).set j { dj with velocity := ⟨0, 0⟩ }
    else
      let v := pairVector simulationConstant extent di.value dj.value r diffVector
      let ai := ImVec2.addAssign di.acceleration v
      let aj := ImVec2.subAssign dj.acceleration v
      let vi := ImVec2.addAssign di.velocity ai
      let vj := ImVec2.addAssign dj.velocity aj
      let pi := ImVec2.addAssign di.position vi
      let pj := ImVec2.addAssign dj.position vj
      (dots.set i ⟨di.value, pi, vi, ai⟩).set j ⟨dj.value, pj, vj, aj⟩
  | _, _ => dots

/-- The inner loop `for (j = ...; j < dots.size(); j++)`, started at `j`.
The first argument bounds the number of iterations; `dots.length - j`
iterations are enough (`innerLoop_fuel`). -/
def innerLoop (sqrt : F → F) (simulationConstant : F) (extent : ImVec2 F) (i : Nat) :
    Nat → Nat → List (dot_t F) → List (dot_t F)
  | 0, _, dots => dots
  | fuel + 1, j, dots =>
    if j < dots.length then
      innerLoop sqrt simulationConstant extent i fuel (j + 1)
        (pairStep sqrt simulationConstant extent i j dots)
    else dots

/-- The outer loop `for (i = ...; i < dots.size(); i++)`, started at `i`.
The first argument bounds the number of iterations; `dots.length - i`
iterations are enough (`outerLoop_fuel`). -/
def outerLoop (sqrt : F → F) (simulationConstant : F) (extent : ImVec2 F) :
    Nat → Nat → List (dot_t F) → List (dot_t F)
  | 0, _, dots => dots
  | fuel + 1, i, dots =>
    if i < dots.length then
      outerLoop sqrt simulationConstant extent fuel (i + 1)
        (innerLoop sqrt simulationConstant extent i dots.length (i + 1) dots)
    else dots

/-- One frame of the force loop (lines 248-281). -/
def integrate (sqrt : F → F) (simulationConstant : F) (extent : ImVec2 F)
    (dots : List (dot_t F)) : List (dot_t F) :=
  outerLoop sqrt simulationConstant extent dots.length 0 dots

/-! ## Drawing pass with its erase of far-away dots (lines 284-303) -/

/-- The test of lines 288-289, with `limitMin` and `limitMax` of lines 286-287;
`regionMin` and `regionMax` are `GetWindowContentRegionMin()` and
`GetWindowContentRegionMax()`. -/
def outOfBounds (regionMin regionMax : ImVec2 F) (d : dot_t F) : Prop :=
  let limitMax := ImVec2.add regionMax ⟨200, 200⟩
  let limitMin := ImVec2.sub regionMin ⟨200, 200⟩
  d.position.x < limitMin.x ∨ d.position.y < limitMin.y ∨
    d.position.x > limitMax.x ∨ d.position.y > limitMax.y

instance (regionMin regionMax : ImVec2 F) (d : dot_t F) :
    Decidable (outOfBounds regionMin regionMax d) :=
  inferInstanceAs (Decidable (_ ∨ _ ∨ _ ∨ _))

/-- The loop of lines 284-303, started at index `i`.  After
`dots.erase(dots.begin() + i)` the loop still executes `i++`.  The drawing calls
do not change the dots.  The first argument bounds the number of iterations;
`dots.length - i` iterations are enough (`pruneLoop_fuel`). -/
def pruneLoop (regionMin regionMax : ImVec2 F) :
    Nat → Nat → List (dot_t F) → List (dot_t F)
  | 0, _, dots => dots
  | fuel + 1, i, dots =>
    match dots[i]? with
    | some d =>
      if outOfBounds regionMin regionMax d then
        pruneLoop regionMin regionMax fuel (i + 1) (dots.eraseIdx i)
      else pruneLoop regionMin regionMax fuel (i + 1) dots
    | none => dots

/-- The whole drawing pass of one frame. -/
def pruneOutOfBounds (regionMin regionMax : ImVec2 F) (dots : List (dot_t F)) :
    List (dot_t F) :=
  pruneLoop regionMin regionMax dots.length 0 dots

/-! ## Concrete inputs used below -/

/-- A dot at rest with the given charge and position. -/
def restingDot (q x y : F) : dot_t F := ⟨q, ⟨x, y⟩, ⟨0, 0⟩, ⟨0, 0⟩⟩

/-- The globals with the given dots, flags and pointer; constant 1, pending
charge 5. -/
def sampleState (dots : List (dot_t F)) (adding placing : Bool) (mx my : F) : SimState F :=
  ⟨dots, 1, adding, placing, 5, ⟨mx, my⟩⟩

end Engine

/-! ## The same engine over float values with infinities and NaN

The exact model above has no value for an overflowed or undefined result.  The
definitions below run the same code over `FloatVal F`: a finite number, plus or
minus infinity, or NaN, combined by the IEEE 754 rules for the special values.
Finite results are still exact (no rounding, no overflow of a finite result);
the two zeros of IEEE 754 are one value here, taken as the positive zero when
it is a divisor. -/

/-- A float: finite, plus infinity, minus infinity or NaN. -/
inductive FloatVal (F : Type) where
  | fin (x : F)
  | pinf
  | ninf
  | nan
deriving DecidableEq

section IeeeEngine

variable {F : Type} [LinearOrderedField F]

namespace FloatVal

/-- Float addition. -/
def add (a b : FloatVal F) : FloatVal F :=
  match a with
  | fin x =>
    match b with
    | fin y => fin (x + y)
    | pinf => pinf
    | ninf => ninf
    | nan => nan
  | pinf =>
    match b with
    | fin _ => pinf
    | pinf => pinf
    | ninf => nan
    | nan => nan
  | ninf =>
    match b with
    | fin _ => ninf
    | pinf => nan
    | ninf => ninf
    | nan => nan
  | nan => nan

/-- Float negation. -/
def neg (a : FloatVal F) : FloatVal F :=
  match a with
  | fin x => fin (-x)
  | pinf => ninf
  | ninf => pinf
  | nan => nan

/-- The infinity with the sign of `x`, or NaN for `x = 0`: an infinity times
the finite `x`. -/
def infTimes (x : F) : FloatVal F :=
  if x = 0 then nan else if 0 < x then pinf else ninf

/-- Float multiplication. -/
def mul (a b : FloatVal F) : FloatVal F :=
  match a with
  | fin x =>
    match b with
    | fin y => fin (x * y)
    | pinf => infTimes x
    | ninf => infTimes (-x)
    | nan => nan
  | pinf =>
    match b with
    | fin y => infTimes y
    | pinf => pinf
    | ninf => ninf
    | nan => nan
  | ninf =>
    match b with
    | fin y => infTimes (-y)
    | pinf => ninf
    | ninf => pinf
    | nan => nan
  | nan => nan

/-- Float division. -/
def div (a b : FloatVal F) : FloatVal F :=
  match a with
  | fin x =>
    match b with
    | fin y => if y = 0 then infTimes x else fin (x / y)
    | pinf => fin 0
    | ninf => fin 0
    | nan => nan
  | pinf =>
    match b with
    | fin y => if 0 ≤ y then pinf else ninf
    | pinf => nan
    | ninf => nan
    | nan => nan
  | ninf =>
    match b with
    | fin y => if 0 ≤ y then ninf else pinf
    | pinf => nan
    | ninf => nan
    | nan => nan
  | nan => nan

/-- Float absolute value. -/
def abs (a : FloatVal F) : FloatVal F :=
  match a with
  | fin x => fin |x|
  | pinf => pinf
  | ninf => pinf
  | nan => nan

/-- The comparison `a <= b` of floats: false when either side is NaN. -/
def le (a b : FloatVal F) : Prop :=
  match a with
  | fin x =>
    match b with
    | fin y => x ≤ y
    | pinf => True
    | ninf => False
    | nan => False
  | pinf =>
    match b with
    | fin _ => False
    | pinf => True
    | ninf => False
    | nan => False
  | ninf =>
    match b with
    | fin _ => True
    | pinf => True
    | ninf => True
    | nan => False
  | nan => False

/-- The comparison `a < b` of floats: false when either side is NaN. -/
def lt (a b : FloatVal F) : Prop :=
  match a with
  | fin x =>
    match b with
    | fin y => x < y
    | pinf => True
    | ninf => False
    | nan => False
  | pinf => False
  | ninf =>
    match b with
    | fin _ => True
    | pinf => True
    | ninf => False
    | nan => False
  | nan => False

instance (a b : FloatVal F) : Decidable (le a b) := by
  cases a <;> cases b <;> unfold le <;> infer_instance

instance (a b : FloatVal F) : Decidable (lt a b) := by
  cases a <;> cases b <;> unfold lt <;> infer_instance

/-- The library `sqrt` on floats, given the square root `sqrt` of finite
non-negative numbers: NaN for a negative argument. -/
def sqrtVal (sqrt : F → F) (a : FloatVal F) : FloatVal F :=
  match a with
  | fin x => if x < 0 then nan else fin (sqrt x)
  | pinf => pinf
  | ninf => nan
  | nan => nan

/-- A float that is a finite number. -/
def IsFinite (a : FloatVal F) : Prop :=
  match a with
  | fin _ => True
  | pinf => False
  | ninf => False
  | nan => False

/-- A finite float of absolute value at most `c`. -/
def AbsLe (a : FloatVal F) (c : F) : Prop :=
  match a with
  | fin x => |x| ≤ c
  | pinf => False
  | ninf => False
  | nan => False

/-- The number a finite float stands for (0 for the other floats). -/
def toExact (a : FloatVal F) : F :=
  match a with
  | fin x => x
  | pinf => 0
  | ninf => 0
  | nan => 0

end FloatVal

namespace Ieee

open FloatVal

/-! ### Vector operators (lines 353-395) on floats -/

/-- `operator+(a, b)`. -/
def vecAdd (a b : ImVec2 (FloatVal F)) : ImVec2 (FloatVal F) := ⟨add a.x b.x, add a.y b.y⟩

/-- Unary `operator-(a)`. -/
def vecNeg (a : ImVec2 (FloatVal F)) : ImVec2 (FloatVal F) := ⟨neg a.x, neg a.y⟩

/-- Binary `operator-(a, b)`, which is `a + (-b)`. -/
def vecSub (a b : ImVec2 (FloatVal F)) : ImVec2 (FloatVal F) := vecAdd a (vecNeg b)

/-- `operator*=(a, c)`: the new value of `a`. -/
def mulAssign (a : ImVec2 (FloatVal F)) (c : FloatVal F) : ImVec2 (FloatVal F) :=
  ⟨mul a.x c, mul a.y c⟩

/-- `operator/=(a, b)`: the new value of `a`. -/
def divAssign (a b : ImVec2 (FloatVal F)) : ImVec2 (FloatVal F) := ⟨div a.x b.x, div a.y b.y⟩

/-- `operator+=(a, b)`: the new value of `a`. -/
def addAssign (a b : ImVec2 (FloatVal F)) : ImVec2 (FloatVal F) := ⟨add a.x b.x, add a.y b.y⟩

/-- `operator-=(a, b)`: the new value of `a`, which is `a += (-b)`. -/
def subAssign (a b : ImVec2 (FloatVal F)) : ImVec2 (FloatVal F) := addAssign a (vecNeg b)

/-- The expression `sqrt(v.x * v.x + v.y * v.y)` of lines 163 and 253. -/
def vecLength (sqrt : F → F) (v : ImVec2 (FloatVal F)) : FloatVal F :=
  sqrtVal sqrt (add (mul v.x v.x) (mul v.y v.y))

/-- The temporary dot pushed before the main loop (line 124). -/
def placeholder : dot_t (FloatVal F) := ⟨fin 0, ⟨fin (-50), fin (-50)⟩, ⟨fin 0, fin 0⟩, ⟨fin 0, fin 0⟩⟩

/-! ### Removing the dot under the pointer (lines 160-169) -/

/-- The test `r <= SIM_DOT_RADIUS` of the right-button handler for one dot. -/
def underPointer (sqrt : F → F) (mousePos : ImVec2 (FloatVal F)) (d : dot_t (FloatVal F)) :
    Prop :=
  le (vecLength sqrt (vecSub d.position mousePos)) (fin 10)

instance (sqrt : F → F) (mousePos : ImVec2 (FloatVal F)) (d : dot_t (FloatVal F)) :
    Decidable (underPointer sqrt mousePos d) :=
  inferInstanceAs (Decidable (le _ _))

/-- The reverse-iterator loop of lines 160-169; `n` is the number of dots not
visited yet. -/
def removeLoop (sqrt : F → F) (mousePos : ImVec2 (FloatVal F)) (dots : List (dot_t (FloatVal F))) :
    Nat → List (dot_t (FloatVal F))
  | 0 => dots
  | n + 1 =>
    match dots[n]? with
    | some d =>
      if underPointer sqrt mousePos d then dots.eraseIdx n
      else removeLoop sqrt mousePos dots n
    | none => dots

/-- The whole loop, started at `dots.rbegin()`. -/
def removeNearest (sqrt : F → F) (mousePos : ImVec2 (FloatVal F))
    (dots : List (dot_t (FloatVal F))) : List (dot_t (FloatVal F)) :=
  removeLoop sqrt mousePos dots dots.length

/-! ### Placing the pending dot (lines 236-244) -/

/-- The test of lines 238-239. -/
def insideSpace (spaceStart spaceEnd p : ImVec2 (FloatVal F)) : Prop :=
  lt p.x spaceEnd.x ∧ lt p.y spaceEnd.y ∧ lt spaceStart.x p.x ∧ lt spaceStart.y p.y

instance (spaceStart spaceEnd p : ImVec2 (FloatVal F)) :
    Decidable (insideSpace spaceStart spaceEnd p) :=
  inferInstanceAs (Decidable (_ ∧ _ ∧ _ ∧ _))

/-- The block `if (isPlacingNewDot) ...` of lines 236-244. -/
def placementStep (spaceStart spaceEnd : ImVec2 (FloatVal F)) (s : SimState (FloatVal F)) :
    SimState (FloatVal F) :=
  if s.isPlacingNewDot then
    if insideSpace spaceStart spaceEnd s.mousePos then
      { s with dots := s.dots ++ [⟨s.newDotValue, s.mousePos, ⟨fin 0, fin 0⟩, ⟨fin 0, fin 0⟩⟩],
               isPlacingNewDot := false }
    else { s with isPlacingNewDot := false }
  else s

/-! ### Force loop (lines 248-281) -/

/-- The value `coulombsForce` of line 261. -/
def coulombsForce (simulationConstant qi qj r : FloatVal F) : FloatVal F :=
  mul simulationConstant (div (mul (abs qi) (abs qj)) r)

/-- The flag `isVecOrientMinus` of line 262. -/
def isVecOrientMinus (qi qj : FloatVal F) : Prop :=
  (lt (fin 0) qi ∧ lt (fin 0) qj) ∨ (lt qi (fin 0) ∧ lt qj (fin 0))

instance (qi qj : FloatVal F) : Decidable (isVecOrientMinus qi qj) :=
  inferInstanceAs (Decidable (_ ∨ _))

/-- The vector added to `dots[i].acceleration` and subtracted from
`dots[j].acceleration`: `diffVector` after lines 264-269. -/
def pairVector (simulationConstant : FloatVal F) (extent : ImVec2 (FloatVal F))
    (qi qj r : FloatVal F) (diffVector : ImVec2 (FloatVal F)) : ImVec2 (FloatVal F) :=
  let scaled := divAssign (mulAssign diffVector (coulombsForce simulationConstant qi qj r)) extent
  if isVecOrientMinus qi qj then vecNeg scaled else scaled

/-- The body of the inner loop (lines 252-279) for the pair `i`, `j`. -/
def pairStep (sqrt : F → F) (simulationConstant : FloatVal F) (extent : ImVec2 (FloatVal F))
    (i j : Nat) (dots : List (dot_t (FloatVal F))) : List (dot_t (FloatVal F)) :=
  match dots[i]?, dots[j]? with
  | some di, some dj =>
    let diffVector := vecSub dj.position di.position
    let r := vecLength sqrt diffVector
    if le r (fin 20) then
      (dots.set i { di with velocity := ⟨fin 0, fin 0⟩ }).set j
        { dj with velocity := ⟨fin 0, fin 0⟩ }
    else
      let v := pairVector simulationConstant extent di.value dj.value r diffVector
      let ai := addAssign di.acceleration v
      let aj := subAssign dj.acceleration v
      let vi := addAssign di.velocity ai
      let vj := addAssign dj.velocity aj
      let pi := addAssign di.position vi
      let pj := addAssign dj.position vj
      (dots.set i ⟨di.value, pi, vi, ai⟩).set j ⟨dj.value, pj, vj, aj⟩
  | _, _ => dots

/-- The inner loop `for (j = ...; j < dots.size(); j++)`, started at `j`; the
first argument bounds the number of iterations. -/
def innerLoop (sqrt : F → F) (simulationConstant : FloatVal F) (extent : ImVec2 (FloatVal F))
    (i : Nat) : Nat → Nat → List (dot_t (FloatVal F)) → List (dot_t (FloatVal F))
  | 0, _, dots => dots
  | fuel + 1, j, dots =>
    if j < dots.length then
      innerLoop sqrt simulationConstant extent i fuel (j + 1)
        (pairStep sqrt simulationConstant extent i j dots)
    else dots

/-- The outer loop `for (i = ...; i < dots.size(); i++)`, started at `i`; the
first argument bounds the number of iterations. -/
def outerLoop (sqrt : F → F) (simulationConstant : FloatVal F) (extent : ImVec2 (FloatVal F)) :
    Nat → Nat → List (dot_t (FloatVal F)) → List (dot_t (FloatVal F))
  | 0, _, dots => dots
  | fuel + 1, i, dots =>
    if i < dots.length then
      outerLoop sqrt simulationConstant extent fuel (i + 1)
        (innerLoop sqrt simulationConstant extent i dots.length (i + 1) dots)
    else dots

/-- One frame of the force loop (lines 248-281). -/
def integrate (sqrt : F → F) (simulationConstant : FloatVal F) (extent : ImVec2 (FloatVal F))
    (dots : List (dot_t (FloatVal F))) : List (dot_t (FloatVal F)) :=
  outerLoop sqrt simulationConstant extent dots.length 0 dots

/-! ### Drawing pass with its erase of far-away dots (lines 284-303) -/

/-- The test of lines 288-289, with `limitMin` and `limitMax` of lines 286-287. -/
def outOfBounds (regionMin regionMax : ImVec2 (FloatVal F)) (d : dot_t (FloatVal F)) : Prop :=
  let limitMax := vecAdd regionMax ⟨fin 200, fin 200⟩
  let limitMin := vecSub regionMin ⟨fin 200, fin 200⟩
  lt d.position.x limitMin.x ∨ lt d.position.y limitMin.y ∨
    lt limitMax.x d.position.x ∨ lt limitMax.y d.position.y

instance (regionMin regionMax : ImVec2 (FloatVal F)) (d : dot_t (FloatVal F)) :
    Decidable (outOfBounds regionMin regionMax d) :=
  inferInstanceAs (Decidable (_ ∨ _ ∨ _ ∨ _))

/-- The loop of lines 284-303, started at index `i`; after the erase the loop
still executes `i++`.  The first argument bounds the number of iterations. -/
def pruneLoop (regionMin regionMax : ImVec2 (FloatVal F)) :
    Nat → Nat → List (dot_t (FloatVal F)) → List (dot_t (FloatVal F))
  | 0, _, dots => dots
  | fuel + 1, i, dots =>
    match dots[i]? with
    | some d =>
      if outOfBounds regionMin regionMax d then
        pruneLoop regionMin regionMax fuel (i + 1) (dots.eraseIdx i)
      else pruneLoop regionMin regionMax fuel (i + 1) dots
    | none => dots

/-- The whole drawing pass of one frame. -/
def pruneOutOfBounds (regionMin regionMax : ImVec2 (FloatVal F))
    (dots : List (dot_t (FloatVal F))) : List (dot_t (FloatVal F)) :=
  pruneLoop regionMin regionMax dots.length 0 dots

/-! ### Finite dots and the passage from the exact model -/

/-- A vector of two finite floats. -/
def VecFinite (v : ImVec2 (FloatVal F)) : Prop := IsFinite v.x ∧ IsFinite v.y

/-- A dot all of whose fields are finite floats. -/
def DotFinite (d : dot_t (FloatVal F)) : Prop :=
  IsFinite d.value ∧ VecFinite d.position ∧ VecFinite d.velocity ∧ VecFinite d.acceleration

/-- A vector of exact numbers as a vector of finite floats. -/
def liftVec (v : ImVec2 F) : ImVec2 (FloatVal F) := ⟨fin v.x, fin v.y⟩

/-- A dot of the exact model as a dot of finite floats. -/
def liftDot (d : dot_t F) : dot_t (FloatVal F) :=
  ⟨fin d.value, liftVec d.position, liftVec d.velocity, liftVec d.acceleration⟩

/-- The numbers of a vector of floats (0 where the float is not finite). -/
def exactVec (v : ImVec2 (FloatVal F)) : ImVec2 F := ⟨toExact v.x, toExact v.y⟩

/-- The numbers of a dot of floats (0 where the float is not finite). -/
def exactDot (d : dot_t (FloatVal F)) : dot_t F :=
  ⟨toExact d.value, exactVec d.position, exactVec d.velocity, exactVec d.acceleration⟩

/-- A vector of two finite floats of absolute value at most 10^9. -/
def VecInRange (v : ImVec2 (FloatVal F)) : Prop := AbsLe v.x (10 ^ 9) ∧ AbsLe v.y (10 ^ 9)

/-- The dot lists the program can hold when every force frame runs on finite
values: it starts with the temporary dot alone and each frame runs some of: a
right click outside adding mode (pointer coordinates not negative), the
placement block, the force loop (finite constant, finite and non-zero extent,
every dot finite), and the drawing pass (with the temporary dot inside the
enlarged window rectangle). -/
inductive Reachable (sqrt : F → F) : List (dot_t (FloatVal F)) → Prop
  | init : Reachable sqrt [placeholder]
  | remove (mousePos : ImVec2 (FloatVal F)) (dots : List (dot_t (FloatVal F))) :
      le (fin 0) mousePos.x → le (fin 0) mousePos.y → Reachable sqrt dots →
      Reachable sqrt (removeNearest sqrt mousePos dots)
  | spawn (spaceStart spaceEnd : ImVec2 (FloatVal F)) (s : SimState (FloatVal F)) :
      Reachable sqrt s.dots → Reachable sqrt (placementStep spaceStart spaceEnd s).dots
  | integrate (k ex ey : F) (dots : List (dot_t (FloatVal F))) :
      ex ≠ 0 → ey ≠ 0 → (∀ d ∈ dots, DotFinite d) → Reachable sqrt dots →
      Reachable sqrt (integrate sqrt (fin k) ⟨fin ex, fin ey⟩ dots)
  | prune (regionMin regionMax : ImVec2 (FloatVal F)) (dots : List (dot_t (FloatVal F))) :
      le (add regionMin.x (neg (fin 200))) (fin (-50)) →
      le (fin (-50)) (add regionMax.x (fin 200)) →
      le (add regionMin.y (neg (fin 200))) (fin (-50)) →
      le (fin (-50)) (add regionMax.y (fin 200)) →
      Reachable sqrt dots → Reachable sqrt (pruneOutOfBounds regionMin regionMax dots)

end Ieee

end IeeeEngine

/-! ## Theorems -/

section Lemmas

variable {F : Type} [LinearOrderedField F]

/-! ### The loops never run out of iterations -/

theorem pairStep_length (sqrt : F → F) (k : F) (extent : ImVec2 F) (i j : Nat)
    (dots : List (dot_t F)) : (pairStep sqrt k extent i j dots).length = dots.length := by
  unfold pairStep
  split
  · dsimp only
    split <;> simp
  · rfl

theorem innerLoop_length (sqrt : F → F) (k : F) (extent : ImVec2 F) (i : Nat) :
    ∀ (fuel j : Nat) (dots : List (dot_t F)),
      (innerLoop sqrt k extent i fuel j dots).length = dots.length := by
  intro fuel
  induction fuel with
  | zero => intro j dots; rfl
  | succ fuel ih =>
    intro j dots
    unfold innerLoop
    split
    · rw [ih, pairStep_length]
    · rfl

theorem outerLoop_length (sqrt : F → F) (k : F) (extent : ImVec2 F) :
    ∀ (fuel i : Nat) (dots : List (dot_t F)),
      (outerLoop sqrt k extent fuel i dots).length = dots.length := by
  intro fuel
  induction fuel with
  | zero => intro i dots; rfl
  | succ fuel ih =>
    intro i dots
    unfold outerLoop
    split
    · rw [ih, innerLoop_length]
    · rfl

/-- With at least `dots.length - j` iterations allowed the inner loop stops by
its own test `j < dots.size()`: more iterations change nothing. -/
theorem innerLoop_fuel (sqrt : F → F) (k : F) (extent : ImVec2 F) (i : Nat) :
    ∀ (f1 f2 j : Nat) (dots : List (dot_t F)),
      dots.length - j ≤ f1 → dots.length - j ≤ f2 →
      innerLoop sqrt k extent i f1 j dots = innerLoop sqrt k extent i f2 j dots := by
  intro f1
  induction f1 with
  | zero =>
    intro f2 j dots h1 _
    have hj : ¬ j < dots.length := by omega
    cases f2 with
    | zero => rfl
    | succ f2 => simp [innerLoop, hj]
  | succ f1 ih =>
    intro f2 j dots h1 h2
    by_cases hj : j < dots.length
    · cases f2 with
      | zero => omega
      | succ f2 =>
        simp only [innerLoop, hj, if_true]
        apply ih <;> rw [pairStep_length] <;> omega
    · cases f2 with
      | zero => simp [innerLoop, hj]
      | succ f2 => simp [innerLoop, hj]

/-- With at least `dots.length - i` iterations allowed the outer loop stops by
its own test `i < dots.size()`. -/
theorem outerLoop_fuel (sqrt : F → F) (k : F) (extent : ImVec2 F) :
    ∀ (f1 f2 i : Nat) (dots : List (dot_t F)),
      dots.length - i ≤ f1 → dots.length - i ≤ f2 →
      outerLoop sqrt k extent f1 i dots = outerLoop sqrt k extent f2 i dots := by
  intro f1
  induction f1 with
  | zero =>
    intro f2 i dots h1 _
    have hi : ¬ i < dots.length := by omega
    cases f2 with
    | zero => rfl
    | succ f2 => simp [outerLoop, hi]
  | succ f1 ih =>
    intro f2 i dots h1 h2
    by_cases hi : i < dots.length
    · cases f2 with
      | zero => omega
      | succ f2 =>
        simp only [outerLoop, hi, if_true]
        apply ih <;> rw [innerLoop_length] <;> omega
    · cases f2 with
      | zero => simp [outerLoop, hi]
      | succ f2 => simp [outerLoop, hi]

/-- The force loop of a frame is the outer loop run to its own exit, whatever
larger iteration bound is given. -/
theorem integrate_fuel (sqrt : F → F) (k : F) (extent : ImVec2 F) (dots : List (dot_t F))
    (fuel : Nat) (h : dots.length ≤ fuel) :
    outerLoop sqrt k extent fuel 0 dots = integrate sqrt k extent dots := by
  unfold integrate
  apply outerLoop_fuel <;> omega

/-- With at least `dots.length - i` iterations allowed the drawing loop stops by
its own test `i < dots.size()`. -/
theorem pruneLoop_fuel (regionMin regionMax : ImVec2 F) :
    ∀ (f1 f2 i : Nat) (dots : List (dot_t F)),
      dots.length - i ≤ f1 → dots.length - i ≤ f2 →
      pruneLoop regionMin regionMax f1 i dots = pruneLoop regionMin regionMax f2 i dots := by
  intro f1
  induction f1 with
  | zero =>
    intro f2 i dots h1 _
    have hi : dots[i]? = none := by
      rw [List.getElem?_eq_none_iff]; omega
    cases f2 with
    | zero => rfl
    | succ f2 => simp [pruneLoop, hi]
  | succ f1 ih =>
    intro f2 i dots h1 h2
    cases f2 with
    | zero =>
      have hi : dots[i]? = none := by
        rw [List.getElem?_eq_none_iff]; omega
      simp [pruneLoop, hi]
    | succ f2 =>
      unfold pruneLoop
      cases hd : dots[i]? with
      | none => rfl
      | some d =>
        have hlt : i < dots.length := by
          by_contra hge
          have : dots[i]? = none := by rw [List.getElem?_eq_none_iff]; omega
          rw [this] at hd; cases hd
        simp only []
        split
        · apply ih <;> rw [List.length_eraseIdx] <;> simp [hlt] <;> omega
        · apply ih <;> omega

end Lemmas

section Lifecycle

variable {F : Type} [LinearOrderedField F]

/-- The reverse scan, on the first `n` dots: either none of them is under the
pointer and the list is returned as it is, or the list is returned without the
dot of highest index below `n` that is under the pointer. -/
theorem removeLoop_spec (sqrt : F → F) (mousePos : ImVec2 F) (dots : List (dot_t F)) :
    ∀ n : Nat, n ≤ dots.length →
      ((∀ i d, i < n → dots[i]? = some d → ¬ underPointer sqrt mousePos d) ∧
          removeLoop sqrt mousePos dots n = dots) ∨
      (∃ i d, i < n ∧ dots[i]? = some d ∧ underPointer sqrt mousePos d ∧
          (∀ j e, i < j → j < n → dots[j]? = some e → ¬ underPointer sqrt mousePos e) ∧
          removeLoop sqrt mousePos dots n = dots.eraseIdx i) := by
  intro n
  induction n with
  | zero =>
    intro _
    left
    exact ⟨fun i d hi => absurd hi (Nat.not_lt_zero i), rfl⟩
  | succ n ih =>
    intro hn
    have hlt : n < dots.length := hn
    have hget : dots[n]? = some dots[n] := List.getElem?_eq_getElem hlt
    by_cases hp : underPointer sqrt mousePos dots[n]
    · right
      refine ⟨n, dots[n], Nat.lt_succ_self n, hget, hp, ?_, ?_⟩
      · intro j e hj hj2; omega
      · simp [removeLoop, hget, hp]
    · have hstep : removeLoop sqrt mousePos dots (n + 1) = removeLoop sqrt mousePos dots n := by
        simp [removeLoop, hget, hp]
      rcases ih (Nat.le_of_lt hlt) with ⟨hnone, heq⟩ | ⟨i, d, hi, hd, hpd, hmax, heq⟩
      · left
        refine ⟨?_, by rw [hstep, heq]⟩
        intro i d hi hd
        rcases Nat.lt_succ_iff_lt_or_eq.mp hi with h | h
        · exact hnone i d h hd
        · subst h
          rw [hget] at hd
          cases hd
          exact hp
      · right
        refine ⟨i, d, Nat.lt_succ_of_lt hi, hd, hpd, ?_, by rw [hstep, heq]⟩
        intro j e hj hj2 he
        rcases Nat.lt_succ_iff_lt_or_eq.mp hj2 with h | h
        · exact hmax j e hj h he
        · subst h
          rw [hget] at he
          cases he
          exact hp

/-- The test of the placement block, written as two chains of strict
inequalities. -/
theorem insideSpace_iff (spaceStart spaceEnd p : ImVec2 F) :
    insideSpace spaceStart spaceEnd p ↔
      (spaceStart.x < p.x ∧ p.x < spaceEnd.x ∧ spaceStart.y < p.y ∧ p.y < spaceEnd.y) := by
  unfold insideSpace
  constructor
  · rintro ⟨h2, h4, h1, h3⟩
    exact ⟨h1, h2, h3, h4⟩
  · rintro ⟨h1, h2, h3, h4⟩
    exact ⟨h2, h4, h1, h3⟩

/-- The placement block when the placing flag is set and the pointer is inside. -/
theorem placementStep_inside (spaceStart spaceEnd : ImVec2 F) (s : SimState F)
    (hplacing : s.isPlacingNewDot = true)
    (hin : insideSpace spaceStart spaceEnd s.mousePos) :
    placementStep spaceStart spaceEnd s =
      { s with dots := s.dots ++ [⟨s.newDotValue, s.mousePos, ⟨0, 0⟩, ⟨0, 0⟩⟩],
               isPlacingNewDot := false } := by
  simp [placementStep, hplacing, hin]

/-- The placement block when the placing flag is set and the pointer is not
inside. -/
theorem placementStep_outside (spaceStart spaceEnd : ImVec2 F) (s : SimState F)
    (hplacing : s.isPlacingNewDot = true)
    (hout : ¬ insideSpace spaceStart spaceEnd s.mousePos) :
    placementStep spaceStart spaceEnd s = { s with isPlacingNewDot := false } := by
  simp [placementStep, hplacing, hout]

end Lifecycle

section ForceLoop

variable {F : Type} [LinearOrderedField F]

/-! ### Facts about a square root function -/

theorem isSqrt_real : IsSqrt Real.sqrt :=
  fun a ha => ⟨Real.sqrt_nonneg a, Real.mul_self_sqrt ha⟩

theorem IsSqrt.eq_of_mul_self {sqrt : F → F} (hs : IsSqrt sqrt) {r x : F} (hr : 0 ≤ r)
    (hx : r * r = x) : sqrt x = r := by
  have hx0 : 0 ≤ x := by rw [← hx]; exact mul_self_nonneg r
  obtain ⟨h0, h1⟩ := hs x hx0
  exact (mul_self_inj h0 hr).1 (h1.trans hx.symm)

theorem IsSqrt.lt_of_lt {sqrt : F → F} (hs : IsSqrt sqrt) {x y : F} (hx : 0 ≤ x)
    (hxy : x < y) : sqrt x < sqrt y := by
  obtain ⟨hx0, hx1⟩ := hs x hx
  obtain ⟨hy0, hy1⟩ := hs y (le_trans hx (le_of_lt hxy))
  by_contra hcon
  have hle : sqrt y ≤ sqrt x := not_lt.mp hcon
  have : sqrt y * sqrt y ≤ sqrt x * sqrt x := mul_self_le_mul_self hy0 hle
  rw [hx1, hy1] at this
  exact absurd hxy (not_lt.mpr this)

theorem IsSqrt.lt_sqrt {sqrt : F → F} (hs : IsSqrt sqrt) {c x : F} (hc : 0 ≤ c)
    (h : c * c < x) : c < sqrt x := by
  have := hs.lt_of_lt (mul_self_nonneg c) h
  rwa [hs.eq_of_mul_self hc rfl] at this

/-! ### The force loop on a list of two dots -/

/-- On two dots the force loop runs the pair body once, for the pair 0, 1. -/
theorem integrate_two (sqrt : F → F) (k : F) (extent : ImVec2 F) (a b : dot_t F) :
    integrate sqrt k extent [a, b] = pairStep sqrt k extent 0 1 [a, b] := by
  have hlen := pairStep_length sqrt k extent 0 1 [a, b]
  simp [integrate, outerLoop, innerLoop, hlen]

/-- The pair body on two dots that touch or overlap. -/
theorem pairStep_two_near (sqrt : F → F) (k : F) (extent : ImVec2 F) (a b : dot_t F)
    (h : vecLength sqrt (ImVec2.sub b.position a.position) ≤ 20) :
    pairStep sqrt k extent 0 1 [a, b] =
      [{ a with velocity := ⟨0, 0⟩ }, { b with velocity := ⟨0, 0⟩ }] := by
  have h2 : vecLength sqrt (ImVec2.sub b.position a.position) ≤ 2 * SIM_DOT_RADIUS := by
    unfold SIM_DOT_RADIUS; norm_num; exact h
  simp [pairStep, h2]

/-- The force magnitude of a pair is 0 when one of the two charges is 0. -/
theorem coulombsForce_zero_charge (k qi qj r : F) (h : qi = 0 ∨ qj = 0) :
    coulombsForce k qi qj r = 0 := by
  unfold coulombsForce
  rcases h with h | h <;> simp [h]

/-- The vector added to the accelerations is (0,0) when one of the two charges
is 0. -/
theorem pairVector_zero_charge (k : F) (extent : ImVec2 F) (qi qj r : F) (d : ImVec2 F)
    (h : qi = 0 ∨ qj = 0) : pairVector k extent qi qj r d = ⟨0, 0⟩ := by
  have hno : ¬ isVecOrientMinus qi qj := by
    unfold isVecOrientMinus
    rcases h with h | h <;> simp [h]
  simp [pairVector, hno, coulombsForce_zero_charge k qi qj r h, ImVec2.mulAssign,
    ImVec2.divAssign]

/-- The pair body when both indices are valid and the dots are further apart
than 20. -/
theorem pairStep_far (sqrt : F → F) (k : F) (extent : ImVec2 F) (i j : Nat)
    (dots : List (dot_t F)) (hi : i < dots.length) (hj : j < dots.length)
    (h : 20 < vecLength sqrt (ImVec2.sub dots[j].position dots[i].position)) :
    pairStep sqrt k extent i j dots =
      (dots.set i
        ⟨dots[i].value,
          ImVec2.addAssign dots[i].position (ImVec2.addAssign dots[i].velocity
            (ImVec2.addAssign dots[i].acceleration (pairVector k extent dots[i].value dots[j].value
              (vecLength sqrt (ImVec2.sub dots[j].position dots[i].position))
              (ImVec2.sub dots[j].position dots[i].position)))),
          ImVec2.addAssign dots[i].velocity
            (ImVec2.addAssign dots[i].acceleration (pairVector k extent dots[i].value dots[j].value
              (vecLength sqrt (ImVec2.sub dots[j].position dots[i].position))
              (ImVec2.sub dots[j].position dots[i].position))),
          ImVec2.addAssign dots[i].acceleration (pairVector k extent dots[i].value dots[j].value
              (vecLength sqrt (ImVec2.sub dots[j].position dots[i].position))
              (ImVec2.sub dots[j].position dots[i].position))⟩).set j
        ⟨dots[j].value,
          ImVec2.addAssign dots[j].position (ImVec2.addAssign dots[j].velocity
            (ImVec2.subAssign dots[j].acceleration (pairVector k extent dots[i].value dots[j].value
              (vecLength sqrt (ImVec2.sub dots[j].position dots[i].position))
              (ImVec2.sub dots[j].position dots[i].position)))),
          ImVec2.addAssign dots[j].velocity
            (ImVec2.subAssign dots[j].acceleration (pairVector k extent dots[i].value dots[j].value
              (vecLength sqrt (ImVec2.sub dots[j].position dots[i].position))
              (ImVec2.sub dots[j].position dots[i].position))),
          ImVec2.subAssign dots[j].acceleration (pairVector k extent dots[i].value dots[j].value
              (vecLength sqrt (ImVec2.sub dots[j].position dots[i].position))
              (ImVec2.sub dots[j].position dots[i].position))⟩ := by
  have h2 : ¬ vecLength sqrt (ImVec2.sub dots[j].position dots[i].position) ≤
      2 * SIM_DOT_RADIUS := by
    unfold SIM_DOT_RADIUS; norm_num; exact h
  unfold pairStep
  rw [List.getElem?_eq_getElem hi, List.getElem?_eq_getElem hj]
  simp [h2]

/-! ### Stretching and shrinking a difference vector -/

/-- On three dots the force loop runs the pair body for 0,1 then 0,2 then 1,2. -/
theorem integrate_three (sqrt : F → F) (k : F) (extent : ImVec2 F) (p a b : dot_t F) :
    integrate sqrt k extent [p, a, b] =
      pairStep sqrt k extent 1 2
        (pairStep sqrt k extent 0 2 (pairStep sqrt k extent 0 1 [p, a, b])) := by
  have h1 := pairStep_length sqrt k extent 0 1 [p, a, b]
  have h2 := pairStep_length sqrt k extent 0 2 (pairStep sqrt k extent 0 1 [p, a, b])
  have h3 := pairStep_length sqrt k extent 1 2
    (pairStep sqrt k extent 0 2 (pairStep sqrt k extent 0 1 [p, a, b]))
  simp [integrate, outerLoop, innerLoop, h1, h2, h3]

/-! ### Worked frames, for any square root function -/

/-- The temporary dot and two dots of charge 1000 at (100,100) and (200,100),
constant 1, extent 800 by 600: one frame from rest throws both dots far beyond
the window. -/
theorem frame_three_dots_strong (sqrt : F → F) (hs : IsSqrt sqrt) :
    integrate sqrt (1 : F) ⟨800, 600⟩
        [placeholder, restingDot 1000 100 100, restingDot 1000 200 100] =
      [placeholder, ⟨1000, ⟨-1150, 100⟩, ⟨-1250, 0⟩, ⟨-1250, 0⟩⟩,
        ⟨1000, ⟨1450, 100⟩, ⟨1250, 0⟩, ⟨1250, 0⟩⟩] := by
  have e : sqrt 10000 = 100 := hs.eq_of_mul_self (by norm_num) (by norm_num)
  have f1 : (20 : F) < sqrt 45000 := hs.lt_sqrt (by norm_num) (by norm_num)
  have f2 : (20 : F) < sqrt 85000 := hs.lt_sqrt (by norm_num) (by norm_num)
  have s1 : pairStep sqrt (1 : F) ⟨800, 600⟩ 0 1
      [placeholder, restingDot 1000 100 100, restingDot 1000 200 100] =
      [placeholder, restingDot 1000 100 100, restingDot 1000 200 100] := by
    norm_num [pairStep, placeholder, restingDot, vecLength, pairVector, coulombsForce,
      isVecOrientMinus, SIM_DOT_RADIUS, ImVec2.sub, ImVec2.add, ImVec2.neg, ImVec2.addAssign,
      ImVec2.subAssign, ImVec2.mulAssign, ImVec2.divAssign, f1]
  have s2 : pairStep sqrt (1 : F) ⟨800, 600⟩ 0 2
      [placeholder, restingDot 1000 100 100, restingDot 1000 200 100] =
      [placeholder, restingDot 1000 100 100, restingDot 1000 200 100] := by
    norm_num [pairStep, placeholder, restingDot, vecLength, pairVector, coulombsForce,
      isVecOrientMinus, SIM_DOT_RADIUS, ImVec2.sub, ImVec2.add, ImVec2.neg, ImVec2.addAssign,
      ImVec2.subAssign, ImVec2.mulAssign, ImVec2.divAssign, f2]
  have s3 : pairStep sqrt (1 : F) ⟨800, 600⟩ 1 2
      [placeholder, restingDot 1000 100 100, restingDot 1000 200 100] =
      [placeholder, ⟨1000, ⟨-1150, 100⟩, ⟨-1250, 0⟩, ⟨-1250, 0⟩⟩,
        ⟨1000, ⟨1450, 100⟩, ⟨1250, 0⟩, ⟨1250, 0⟩⟩] := by
    norm_num [pairStep, placeholder, restingDot, vecLength, pairVector, coulombsForce,
      isVecOrientMinus, SIM_DOT_RADIUS, ImVec2.sub, ImVec2.add, ImVec2.neg, ImVec2.addAssign,
      ImVec2.subAssign, ImVec2.mulAssign, ImVec2.divAssign, e]
  rw [integrate_three, s1, s2, s3]

/-- The temporary dot and two dots of charge 5 at (100,100) and (200,100),
constant 1, extent 800 by 600: the first frame from rest. -/
theorem frame_one_three_dots (sqrt : F → F) (hs : IsSqrt sqrt) :
    integrate sqrt (1 : F) ⟨800, 600⟩
        [placeholder, restingDot 5 100 100, restingDot 5 200 100] =
      [placeholder, ⟨5, ⟨100 - 1 / 32, 100⟩, ⟨-1 / 32, 0⟩, ⟨-1 / 32, 0⟩⟩,
        ⟨5, ⟨200 + 1 / 32, 100⟩, ⟨1 / 32, 0⟩, ⟨1 / 32, 0⟩⟩] := by
  have e : sqrt 10000 = 100 := hs.eq_of_mul_self (by norm_num) (by norm_num)
  have f1 : (20 : F) < sqrt 45000 := hs.lt_sqrt (by norm_num) (by norm_num)
  have f2 : (20 : F) < sqrt 85000 := hs.lt_sqrt (by norm_num) (by norm_num)
  have s1 : pairStep sqrt (1 : F) ⟨800, 600⟩ 0 1
      [placeholder, restingDot 5 100 100, restingDot 5 200 100] =
      [placeholder, restingDot 5 100 100, restingDot 5 200 100] := by
    norm_num [pairStep, placeholder, restingDot, vecLength, pairVector, coulombsForce,
      isVecOrientMinus, SIM_DOT_RADIUS, ImVec2.sub, ImVec2.add, ImVec2.neg, ImVec2.addAssign,
      ImVec2.subAssign, ImVec2.mulAssign, ImVec2.divAssign, f1]
  have s2 : pairStep sqrt (1 : F) ⟨800, 600⟩ 0 2
      [placeholder, restingDot 5 100 100, restingDot 5 200 100] =
      [placeholder, restingDot 5 100 100, restingDot 5 200 100] := by
    norm_num [pairStep, placeholder, restingDot, vecLength, pairVector, coulombsForce,
      isVecOrientMinus, SIM_DOT_RADIUS, ImVec2.sub, ImVec2.add, ImVec2.neg, ImVec2.addAssign,
      ImVec2.subAssign, ImVec2.mulAssign, ImVec2.divAssign, f2]
  have s3 : pairStep sqrt (1 : F) ⟨800, 600⟩ 1 2
      [placeholder, restingDot 5 100 100, restingDot 5 200 100] =
      [placeholder, ⟨5, ⟨100 - 1 / 32, 100⟩, ⟨-1 / 32, 0⟩, ⟨-1 / 32, 0⟩⟩,
        ⟨5, ⟨200 + 1 / 32, 100⟩, ⟨1 / 32, 0⟩, ⟨1 / 32, 0⟩⟩] := by
    norm_num [pairStep, placeholder, restingDot, vecLength, pairVector, coulombsForce,
      isVecOrientMinus, SIM_DOT_RADIUS, ImVec2.sub, ImVec2.add, ImVec2.neg, ImVec2.addAssign,
      ImVec2.subAssign, ImVec2.mulAssign, ImVec2.divAssign, e]
  rw [integrate_three, s1, s2, s3]

/-- The second frame of the same three dots. -/
theorem frame_two_three_dots (sqrt : F → F) (hs : IsSqrt sqrt) :
    integrate sqrt (1 : F) ⟨800, 600⟩
        [placeholder, ⟨5, ⟨100 - 1 / 32, 100⟩, ⟨-1 / 32, 0⟩, ⟨-1 / 32, 0⟩⟩,
          ⟨5, ⟨200 + 1 / 32, 100⟩, ⟨1 / 32, 0⟩, ⟨1 / 32, 0⟩⟩] =
      [placeholder, ⟨5, ⟨100 - 7 / 32, 100⟩, ⟨-1 / 8, 0⟩, ⟨-1 / 16, 0⟩⟩,
        ⟨5, ⟨200 + 7 / 32, 100⟩, ⟨1 / 8, 0⟩, ⟨1 / 16, 0⟩⟩] := by
  have e2 : sqrt (2569609 / 256) = 1603 / 16 :=
    hs.eq_of_mul_self (by norm_num) (by norm_num)
  have f1 : (20 : F) < sqrt (46070401 / 1024) := hs.lt_sqrt (by norm_num) (by norm_num)
  have f2 : (20 : F) < sqrt (87056001 / 1024) := hs.lt_sqrt (by norm_num) (by norm_num)
  have f3 : (20 : F) < 1603 / 16 := by norm_num
  have s1 : pairStep sqrt (1 : F) ⟨800, 600⟩ 0 1
      [placeholder, ⟨5, ⟨100 - 1 / 32, 100⟩, ⟨-1 / 32, 0⟩, ⟨-1 / 32, 0⟩⟩,
        ⟨5, ⟨200 + 1 / 32, 100⟩, ⟨1 / 32, 0⟩, ⟨1 / 32, 0⟩⟩] =
      [placeholder, ⟨5, ⟨100 - 3 / 32, 100⟩, ⟨-1 / 16, 0⟩, ⟨-1 / 32, 0⟩⟩,
        ⟨5, ⟨200 + 1 / 32, 100⟩, ⟨1 / 32, 0⟩, ⟨1 / 32, 0⟩⟩] := by
    norm_num [pairStep, placeholder, vecLength, pairVector, coulombsForce,
      isVecOrientMinus, SIM_DOT_RADIUS, ImVec2.sub, ImVec2.add, ImVec2.neg, ImVec2.addAssign,
      ImVec2.subAssign, ImVec2.mulAssign, ImVec2.divAssign, f1]
  have s2 : pairStep sqrt (1 : F) ⟨800, 600⟩ 0 2
      [placeholder, ⟨5, ⟨100 - 3 / 32, 100⟩, ⟨-1 / 16, 0⟩, ⟨-1 / 32, 0⟩⟩,
        ⟨5, ⟨200 + 1 / 32, 100⟩, ⟨1 / 32, 0⟩, ⟨1 / 32, 0⟩⟩] =
      [placeholder, ⟨5, ⟨100 - 3 / 32, 100⟩, ⟨-1 / 16, 0⟩, ⟨-1 / 32, 0⟩⟩,
        ⟨5, ⟨200 + 3 / 32, 100⟩, ⟨1 / 16, 0⟩, ⟨1 / 32, 0⟩⟩] := by
    norm_num [pairStep, placeholder, vecLength, pairVector, coulombsForce,
      isVecOrientMinus, SIM_DOT_RADIUS, ImVec2.sub, ImVec2.add, ImVec2.neg, ImVec2.addAssign,
      ImVec2.subAssign, ImVec2.mulAssign, ImVec2.divAssign, f2]
  have s3 : pairStep sqrt (1 : F) ⟨800, 600⟩ 1 2
      [placeholder, ⟨5, ⟨100 - 3 / 32, 100⟩, ⟨-1 / 16, 0⟩, ⟨-1 / 32, 0⟩⟩,
        ⟨5, ⟨200 + 3 / 32, 100⟩, ⟨1 / 16, 0⟩, ⟨1 / 32, 0⟩⟩] =
      [placeholder, ⟨5, ⟨100 - 7 / 32, 100⟩, ⟨-1 / 8, 0⟩, ⟨-1 / 16, 0⟩⟩,
        ⟨5, ⟨200 + 7 / 32, 100⟩, ⟨1 / 8, 0⟩, ⟨1 / 16, 0⟩⟩] := by
    norm_num [pairStep, placeholder, vecLength, pairVector, coulombsForce,
      isVecOrientMinus, SIM_DOT_RADIUS, ImVec2.sub, ImVec2.add, ImVec2.neg, ImVec2.addAssign,
      ImVec2.subAssign, ImVec2.mulAssign, ImVec2.divAssign, e2, f3]
  rw [integrate_three, s1, s2, s3]

/-- The same second frame, started with the two acceleration fields cleared. -/
theorem frame_two_three_dots_cleared (sqrt : F → F) (hs : IsSqrt sqrt) :
    integrate sqrt (1 : F) ⟨800, 600⟩
        [placeholder, ⟨5, ⟨100 - 1 / 32, 100⟩, ⟨-1 / 32, 0⟩, ⟨0, 0⟩⟩,
          ⟨5, ⟨200 + 1 / 32, 100⟩, ⟨1 / 32, 0⟩, ⟨0, 0⟩⟩] =
      [placeholder, ⟨5, ⟨100 - 1 / 8, 100⟩, ⟨-1 / 16, 0⟩, ⟨-1 / 32, 0⟩⟩,
        ⟨5, ⟨200 + 1 / 8, 100⟩, ⟨1 / 16, 0⟩, ⟨1 / 32, 0⟩⟩] := by
  have e2 : sqrt (641601 / 64) = 801 / 8 :=
    hs.eq_of_mul_self (by norm_num) (by norm_num)
  have f1 : (20 : F) < sqrt (46070401 / 1024) := hs.lt_sqrt (by norm_num) (by norm_num)
  have f2 : (20 : F) < sqrt (87056001 / 1024) := hs.lt_sqrt (by norm_num) (by norm_num)
  have f3 : (20 : F) < 801 / 8 := by norm_num
  have s1 : pairStep sqrt (1 : F) ⟨800, 600⟩ 0 1
      [placeholder, ⟨5, ⟨100 - 1 / 32, 100⟩, ⟨-1 / 32, 0⟩, ⟨0, 0⟩⟩,
        ⟨5, ⟨200 + 1 / 32, 100⟩, ⟨1 / 32, 0⟩, ⟨0, 0⟩⟩] =
      [placeholder, ⟨5, ⟨100 - 1 / 16, 100⟩, ⟨-1 / 32, 0⟩, ⟨0, 0⟩⟩,
        ⟨5, ⟨200 + 1 / 32, 100⟩, ⟨1 / 32, 0⟩, ⟨0, 0⟩⟩] := by
    norm_num [pairStep, placeholder, vecLength, pairVector, coulombsForce,
      isVecOrientMinus, SIM_DOT_RADIUS, ImVec2.sub, ImVec2.add, ImVec2.neg, ImVec2.addAssign,
      ImVec2.subAssign, ImVec2.mulAssign, ImVec2.divAssign, f1]
  have s2 : pairStep sqrt (1 : F) ⟨800, 600⟩ 0 2
      [placeholder, ⟨5, ⟨100 - 1 / 16, 100⟩, ⟨-1 / 32, 0⟩, ⟨0, 0⟩⟩,
        ⟨5, ⟨200 + 1 / 32, 100⟩, ⟨1 / 32, 0⟩, ⟨0, 0⟩⟩] =
      [placeholder, ⟨5, ⟨100 - 1 / 16, 100⟩, ⟨-1 / 32, 0⟩, ⟨0, 0⟩⟩,
        ⟨5, ⟨200 + 1 / 16, 100⟩, ⟨1 / 32, 0⟩, ⟨0, 0⟩⟩] := by
    norm_num [pairStep, placeholder, vecLength, pairVector, coulombsForce,
      isVecOrientMinus, SIM_DOT_RADIUS, ImVec2.sub, ImVec2.add, ImVec2.neg, ImVec2.addAssign,
      ImVec2.subAssign, ImVec2.mulAssign, ImVec2.divAssign, f2]
  have s3 : pairStep sqrt (1 : F) ⟨800, 600⟩ 1 2
      [placeholder, ⟨5, ⟨100 - 1 / 16, 100⟩, ⟨-1 / 32, 0⟩, ⟨0, 0⟩⟩,
        ⟨5, ⟨200 + 1 / 16, 100⟩, ⟨1 / 32, 0⟩, ⟨0, 0⟩⟩] =
      [placeholder, ⟨5, ⟨100 - 1 / 8, 100⟩, ⟨-1 / 16, 0⟩, ⟨-1 / 32, 0⟩⟩,
        ⟨5, ⟨200 + 1 / 8, 100⟩, ⟨1 / 16, 0⟩, ⟨1 / 32, 0⟩⟩] := by
    norm_num [pairStep, placeholder, vecLength, pairVector, coulombsForce,
      isVecOrientMinus, SIM_DOT_RADIUS, ImVec2.sub, ImVec2.add, ImVec2.neg, ImVec2.addAssign,
      ImVec2.subAssign, ImVec2.mulAssign, ImVec2.divAssign, e2, f3]
  rw [integrate_three, s1, s2, s3]

end ForceLoop

section Placeholder

variable {F : Type} [LinearOrderedField F]

/-! ### The temporary dot stays at the front -/

/-- The pair body leaves a temporary dot at index 0 as it is. -/
theorem pairStep_head (sqrt : F → F) (k : F) (extent : ImVec2 F) (i j : Nat) (hij : i < j)
    (rest : List (dot_t F)) :
    ∃ rest1, pairStep sqrt k extent i j (placeholder :: rest) = placeholder :: rest1 := by
  obtain ⟨j1, rfl⟩ : ∃ j1, j = j1 + 1 := ⟨j - 1, by omega⟩
  cases i with
  | zero =>
    unfold pairStep
    simp only [List.getElem?_cons_zero, List.getElem?_cons_succ]
    cases hj : rest[j1]? with
    | none => exact ⟨rest, rfl⟩
    | some dj =>
      dsimp only
      split
      · exact ⟨rest.set j1 { dj with velocity := ⟨0, 0⟩ }, rfl⟩
      · rw [pairVector_zero_charge k extent (placeholder : dot_t F).value dj.value _ _
          (Or.inl rfl)]
        refine ⟨rest.set j1 ⟨dj.value,
          ImVec2.addAssign dj.position (ImVec2.addAssign dj.velocity
            (ImVec2.subAssign dj.acceleration ⟨0, 0⟩)),
          ImVec2.addAssign dj.velocity (ImVec2.subAssign dj.acceleration ⟨0, 0⟩),
          ImVec2.subAssign dj.acceleration ⟨0, 0⟩⟩, ?_⟩
        simp [placeholder, ImVec2.addAssign]
  | succ i1 =>
    unfold pairStep
    simp only [List.getElem?_cons_succ]
    cases hi : rest[i1]? with
    | none => exact ⟨rest, rfl⟩
    | some di =>
      cases hj : rest[j1]? with
      | none => exact ⟨rest, rfl⟩
      | some dj =>
        dsimp only
        split
        · exact ⟨_, rfl⟩
        · exact ⟨_, rfl⟩

theorem innerLoop_head (sqrt : F → F) (k : F) (extent : ImVec2 F) (i : Nat) :
    ∀ (fuel j : Nat) (rest : List (dot_t F)), i < j →
      ∃ rest1, innerLoop sqrt k extent i fuel j (placeholder :: rest) = placeholder :: rest1 := by
  intro fuel
  induction fuel with
  | zero => intro j rest _; exact ⟨rest, rfl⟩
  | succ fuel ih =>
    intro j rest hij
    unfold innerLoop
    split
    · obtain ⟨rest1, h1⟩ := pairStep_head sqrt k extent i j hij rest
      rw [h1]
      exact ih (j + 1) rest1 (Nat.lt_succ_of_lt hij)
    · exact ⟨rest, rfl⟩

theorem outerLoop_head (sqrt : F → F) (k : F) (extent : ImVec2 F) :
    ∀ (fuel i : Nat) (rest : List (dot_t F)),
      ∃ rest1, outerLoop sqrt k extent fuel i (placeholder :: rest) = placeholder :: rest1 := by
  intro fuel
  induction fuel with
  | zero => intro i rest; exact ⟨rest, rfl⟩
  | succ fuel ih =>
    intro i rest
    unfold outerLoop
    split
    · obtain ⟨rest1, h1⟩ :=
        innerLoop_head sqrt k extent i (placeholder :: rest).length (i + 1) rest
          (Nat.lt_succ_self i)
      rw [h1]
      exact ih (i + 1) rest1
    · exact ⟨rest, rfl⟩

/-- The force loop leaves a temporary dot at index 0 as it is. -/
theorem integrate_head (sqrt : F → F) (k : F) (extent : ImVec2 F) (rest : List (dot_t F)) :
    ∃ rest1, integrate sqrt k extent (placeholder :: rest) = placeholder :: rest1 :=
  outerLoop_head sqrt k extent _ 0 rest

end Placeholder

section Claims

variable {F : Type} [LinearOrderedField F]

/-- The reverse scan on the whole list: if some dot is at distance at most 10
from the pointer, the result is the list without the dot of highest index among
those; if no dot is that close, the result is the list itself. -/
theorem removeNearest_spec (sqrt : F → F) (mousePos : ImVec2 F) (dots : List (dot_t F)) :
    ((∃ d ∈ dots, underPointer sqrt mousePos d) →
      ∃ i, ∃ h : i < dots.length,
        underPointer sqrt mousePos dots[i] ∧
        (∀ j, ∀ hj : j < dots.length, i < j → ¬ underPointer sqrt mousePos dots[j]) ∧
        removeNearest sqrt mousePos dots = dots.eraseIdx i) ∧
    ((∀ d ∈ dots, ¬ underPointer sqrt mousePos d) →
      removeNearest sqrt mousePos dots = dots) := by
  rcases removeLoop_spec sqrt mousePos dots dots.length (Nat.le_refl _) with
    ⟨hnone, heq⟩ | ⟨i, d, hi, hd, hpd, hmax, heq⟩
  · constructor
    · rintro ⟨d, hmem, hp⟩
      obtain ⟨i, hi, rfl⟩ := List.getElem_of_mem hmem
      exact absurd hp (hnone i _ hi (List.getElem?_eq_getElem hi))
    · intro _
      exact heq
  · have hdi : dots[i] = d := by
      have := List.getElem?_eq_getElem hi
      rw [hd] at this
      exact (Option.some.inj this).symm
    constructor
    · intro _
      refine ⟨i, hi, by rw [hdi]; exact hpd, ?_, heq⟩
      intro j hj hij
      exact hmax j _ hij hj (List.getElem?_eq_getElem hj)
    · intro hall
      exact absurd hpd (hall d (hdi ▸ List.getElem_mem hi))

/-- C2. A right-button press while not in adding mode: if some dot is at distance
at most 10 from the pointer, the dot list loses exactly the dot of highest index
among those (the others stay, in order); if no dot is that close, the list is
unchanged.  The flags are as before. -/
theorem rightClick_removes_last_hit (sqrt : F → F) (s : SimState F)
    (hidle : s.isAddingNewDot = false) :
    ((∃ d ∈ s.dots, underPointer sqrt s.mousePos d) →
      ∃ i, ∃ h : i < s.dots.length,
        underPointer sqrt s.mousePos s.dots[i] ∧
        (∀ j, ∀ hj : j < s.dots.length, i < j → ¬ underPointer sqrt s.mousePos s.dots[j]) ∧
        (handleEvent sqrt s .rightDown).dots = s.dots.eraseIdx i) ∧
    ((∀ d ∈ s.dots, ¬ underPointer sqrt s.mousePos d) →
      (handleEvent sqrt s .rightDown).dots = s.dots) ∧
    (handleEvent sqrt s .rightDown).isAddingNewDot = false ∧
    (handleEvent sqrt s .rightDown).isPlacingNewDot = s.isPlacingNewDot := by
  have hright : handleEvent sqrt s .rightDown =
      { s with dots := removeNearest sqrt s.mousePos s.dots } := by
    simp [handleEvent, hidle]
  rw [hright]
  exact ⟨(removeNearest_spec sqrt s.mousePos s.dots).1,
    (removeNearest_spec sqrt s.mousePos s.dots).2, hidle, rfl⟩

/-- Witness of C2: not in adding mode, with dots at (100,100) and (103,104) and
the pointer at (100,100) both are within 10 and the press removes the later
one; with the temporary dot alone nothing is within 10 and the list stays. -/
theorem rightClick_removes_last_hit_witness :
    ((sampleState [placeholder, restingDot 1 100 100, restingDot 2 103 104] false false
          (100 : ℝ) 100).isAddingNewDot = false ∧
      (∃ d ∈ [placeholder, restingDot 1 100 100, restingDot 2 103 104],
          underPointer Real.sqrt (⟨100, 100⟩ : ImVec2 ℝ) d) ∧
      (handleEvent Real.sqrt
          (sampleState [placeholder, restingDot 1 100 100, restingDot 2 103 104] false false
            (100 : ℝ) 100) .rightDown).dots = [placeholder, restingDot 1 100 100]) ∧
    ((sampleState [placeholder] false false (100 : ℝ) 100).isAddingNewDot = false ∧
      (∀ d ∈ [(placeholder : dot_t ℝ)], ¬ underPointer Real.sqrt (⟨100, 100⟩ : ImVec2 ℝ) d) ∧
      (handleEvent Real.sqrt (sampleState [placeholder] false false (100 : ℝ) 100)
          .rightDown).dots = [placeholder]) := by
  have hnew : underPointer Real.sqrt (⟨100, 100⟩ : ImVec2 ℝ) (restingDot 2 103 104) := by
    simp only [underPointer, vecLength, restingDot, ImVec2.sub, ImVec2.add, ImVec2.neg,
      SIM_DOT_RADIUS]
    rw [Real.sqrt_le_iff]
    norm_num
  have hex : ∃ d ∈ [placeholder, restingDot 1 100 100, restingDot 2 103 104],
      underPointer Real.sqrt (⟨100, 100⟩ : ImVec2 ℝ) d :=
    ⟨restingDot 2 103 104, by simp, hnew⟩
  have hall : ∀ d ∈ [(placeholder : dot_t ℝ)],
      ¬ underPointer Real.sqrt (⟨100, 100⟩ : ImVec2 ℝ) d := by
    intro d hd
    rw [List.mem_singleton] at hd
    subst hd
    simp only [underPointer, vecLength, placeholder, ImVec2.sub, ImVec2.add, ImVec2.neg,
      SIM_DOT_RADIUS, not_le]
    rw [Real.lt_sqrt (by norm_num)]
    norm_num
  refine ⟨⟨rfl, hex, ?_⟩, ⟨rfl, hall, ?_⟩⟩
  · obtain ⟨i, hi, hpi, hmax, heq⟩ := (rightClick_removes_last_hit Real.sqrt
      (sampleState [placeholder, restingDot 1 100 100, restingDot 2 103 104] false false
        (100 : ℝ) 100) rfl).1 hex
    have hi3 : i < 3 := hi
    have hi2 : i = 2 := by
      by_contra hne
      have hlt : i < 2 := by omega
      exact hmax 2 (by decide) hlt hnew
    rw [heq, hi2]
    rfl
  · exact (rightClick_removes_last_hit Real.sqrt
      (sampleState [placeholder] false false (100 : ℝ) 100) rfl).2.1 hall

/-- C1 (failing input). Window region (0,0)-(800,600).  Two dots of charge 1000
placed at (100,100) and (200,100) are thrown to x = -1150 and x = 1450 by the
force loop of one frame.  The drawing pass of that frame erases the first and
steps over the second, which stays in the list though x = 1450 is beyond
800 + 200.  The same happens to a dot at (1000,1000) that follows an erased
dot; alone after the temporary dot it is erased. -/
theorem pruneOutOfBounds_skips_dot_after_erased :
    integrate Real.sqrt (1 : ℝ) ⟨800, 600⟩
        [placeholder, restingDot 1000 100 100, restingDot 1000 200 100] =
      [placeholder, ⟨1000, ⟨-1150, 100⟩, ⟨-1250, 0⟩, ⟨-1250, 0⟩⟩,
        ⟨1000, ⟨1450, 100⟩, ⟨1250, 0⟩, ⟨1250, 0⟩⟩] ∧
    pruneOutOfBounds (⟨0, 0⟩ : ImVec2 ℝ) ⟨800, 600⟩
        [placeholder, ⟨1000, ⟨-1150, 100⟩, ⟨-1250, 0⟩, ⟨-1250, 0⟩⟩,
          ⟨1000, ⟨1450, 100⟩, ⟨1250, 0⟩, ⟨1250, 0⟩⟩] =
      [placeholder, ⟨1000, ⟨1450, 100⟩, ⟨1250, 0⟩, ⟨1250, 0⟩⟩] ∧
    outOfBounds (⟨0, 0⟩ : ImVec2 ℝ) ⟨800, 600⟩ ⟨1000, ⟨1450, 100⟩, ⟨1250, 0⟩, ⟨1250, 0⟩⟩ ∧
    pruneOutOfBounds (⟨0, 0⟩ : ImVec2 ℝ) ⟨800, 600⟩
        [placeholder, restingDot 1 1100 300, restingDot 2 1000 1000] =
      [placeholder, restingDot 2 1000 1000] ∧
    outOfBounds (⟨0, 0⟩ : ImVec2 ℝ) ⟨800, 600⟩ (restingDot 2 1000 1000) ∧
    pruneOutOfBounds (⟨0, 0⟩ : ImVec2 ℝ) ⟨800, 600⟩ [placeholder, restingDot 2 1000 1000] =
      [placeholder] := by
  refine ⟨frame_three_dots_strong Real.sqrt isSqrt_real, ?_, ?_, ?_, ?_, ?_⟩ <;>
    norm_num [pruneOutOfBounds, pruneLoop, outOfBounds, ImVec2.add, ImVec2.sub, ImVec2.neg,
      placeholder, restingDot]

/-- C3. The placement block with `isPlacingNewDot` set: a pointer strictly inside
the simulation space appends exactly one dot (pending charge, pointer position,
zero velocity and acceleration); a pointer on the border or outside leaves the
list as it is. -/
theorem placementStep_spawn (spaceStart spaceEnd : ImVec2 F) (s : SimState F)
    (hplacing : s.isPlacingNewDot = true) :
    ((spaceStart.x < s.mousePos.x ∧ s.mousePos.x < spaceEnd.x ∧
        spaceStart.y < s.mousePos.y ∧ s.mousePos.y < spaceEnd.y) →
      (placementStep spaceStart spaceEnd s).dots =
          s.dots ++ [⟨s.newDotValue, s.mousePos, ⟨0, 0⟩, ⟨0, 0⟩⟩] ∧
        (placementStep spaceStart spaceEnd s).dots.length = s.dots.length + 1) ∧
    (¬ (spaceStart.x < s.mousePos.x ∧ s.mousePos.x < spaceEnd.x ∧
        spaceStart.y < s.mousePos.y ∧ s.mousePos.y < spaceEnd.y) →
      (placementStep spaceStart spaceEnd s).dots = s.dots) := by
  constructor
  · intro h
    rw [placementStep_inside spaceStart spaceEnd s hplacing ((insideSpace_iff _ _ _).2 h)]
    simp
  · intro hout
    rw [placementStep_outside spaceStart spaceEnd s hplacing
      (fun hin => hout ((insideSpace_iff _ _ _).1 hin))]

/-- Witness of C3: a spawn at (50,50) in the space (0,0)-(800,600) appends one
dot, so the count grows by exactly one. -/
theorem placementStep_spawn_witness :
    (sampleState [placeholder] false true (50 : ℚ) 50).isPlacingNewDot = true ∧
    (placementStep ⟨0, 0⟩ ⟨800, 600⟩ (sampleState [placeholder] false true (50 : ℚ) 50)).dots =
      [placeholder, ⟨5, ⟨50, 50⟩, ⟨0, 0⟩, ⟨0, 0⟩⟩] ∧
    (placementStep ⟨0, 0⟩ ⟨800, 600⟩
      (sampleState [placeholder] false true (50 : ℚ) 50)).dots.length = 1 + 1 :=
  ⟨rfl,
    ((placementStep_spawn ⟨0, 0⟩ ⟨800, 600⟩ (sampleState [placeholder] false true (50 : ℚ) 50)
      rfl).1 (by norm_num [sampleState])).1,
    ((placementStep_spawn ⟨0, 0⟩ ⟨800, 600⟩ (sampleState [placeholder] false true (50 : ℚ) 50)
      rfl).1 (by norm_num [sampleState])).2⟩

/-- C9. From Arming (adding set, placing clear) a left press and the placement
block of that frame append exactly one dot when the pointer is strictly inside
the simulation space and none otherwise, and end with both flags clear; a right
press in Arming clears both flags and keeps the list, and the placement block
of that frame then does nothing; a left press in Idle changes nothing, and
neither does the placement block after it. -/
theorem placing_state_machine (sqrt : F → F) (spaceStart spaceEnd : ImVec2 F)
    (s : SimState F) :
    (s.isAddingNewDot = true → s.isPlacingNewDot = false →
      ((spaceStart.x < s.mousePos.x ∧ s.mousePos.x < spaceEnd.x ∧
          spaceStart.y < s.mousePos.y ∧ s.mousePos.y < spaceEnd.y) →
        (placementStep spaceStart spaceEnd (handleEvent sqrt s .leftDown)).dots =
          s.dots ++ [⟨s.newDotValue, s.mousePos, ⟨0, 0⟩, ⟨0, 0⟩⟩]) ∧
      (¬ (spaceStart.x < s.mousePos.x ∧ s.mousePos.x < spaceEnd.x ∧
          spaceStart.y < s.mousePos.y ∧ s.mousePos.y < spaceEnd.y) →
        (placementStep spaceStart spaceEnd (handleEvent sqrt s .leftDown)).dots = s.dots) ∧
      (placementStep spaceStart spaceEnd (handleEvent sqrt s .leftDown)).isAddingNewDot = false ∧
      (placementStep spaceStart spaceEnd (handleEvent sqrt s .leftDown)).isPlacingNewDot = false ∧
      (handleEvent sqrt s .rightDown).dots = s.dots ∧
      (handleEvent sqrt s .rightDown).isAddingNewDot = false ∧
      (handleEvent sqrt s .rightDown).isPlacingNewDot = false ∧
      placementStep spaceStart spaceEnd (handleEvent sqrt s .rightDown) =
        handleEvent sqrt s .rightDown) ∧
    (s.isAddingNewDot = false → s.isPlacingNewDot = false →
      handleEvent sqrt s .leftDown = s ∧
      placementStep spaceStart spaceEnd (handleEvent sqrt s .leftDown) = s) := by
  constructor
  · intro hadding _
    have hleft : handleEvent sqrt s .leftDown =
        { s with isAddingNewDot := false, isPlacingNewDot := true } := by
      simp [handleEvent, hadding]
    have hright : handleEvent sqrt s .rightDown =
        { s with isAddingNewDot := false, isPlacingNewDot := false } := by
      simp [handleEvent, hadding]
    rw [hleft, hright]
    refine ⟨?_, ?_, ?_, ?_, rfl, rfl, rfl, by simp [placementStep]⟩
    · intro h
      rw [placementStep_inside spaceStart spaceEnd
        { s with isAddingNewDot := false, isPlacingNewDot := true } rfl
        ((insideSpace_iff _ _ _).2 h)]
    · intro h
      rw [placementStep_outside spaceStart spaceEnd
        { s with isAddingNewDot := false, isPlacingNewDot := true } rfl
        (fun hin => h ((insideSpace_iff _ _ _).1 hin))]
    · unfold placementStep
      simp only [if_true]
      split <;> rfl
    · unfold placementStep
      simp only [if_true]
      split <;> rfl
  · intro hidle hplacing
    have hleft : handleEvent sqrt s .leftDown = s := by simp [handleEvent, hidle]
    rw [hleft]
    exact ⟨rfl, by simp [placementStep, hplacing]⟩

/-- Witness of C9: Arming with the pointer at (50,50) in the space
(0,0)-(800,600), and Idle with the same pointer. -/
theorem placing_state_machine_witness :
    ((sampleState [placeholder] true false (50 : ℝ) 50).isAddingNewDot = true ∧
      (sampleState [placeholder] true false (50 : ℝ) 50).isPlacingNewDot = false ∧
      (placementStep ⟨0, 0⟩ ⟨800, 600⟩
        (handleEvent Real.sqrt (sampleState [placeholder] true false (50 : ℝ) 50)
          .leftDown)).dots = [placeholder, ⟨5, ⟨50, 50⟩, ⟨0, 0⟩, ⟨0, 0⟩⟩] ∧
      (handleEvent Real.sqrt (sampleState [placeholder] true false (50 : ℝ) 50)
          .rightDown).dots = [placeholder]) ∧
    ((sampleState [placeholder] false false (50 : ℝ) 50).isAddingNewDot = false ∧
      (sampleState [placeholder] false false (50 : ℝ) 50).isPlacingNewDot = false ∧
      handleEvent Real.sqrt (sampleState [placeholder] false false (50 : ℝ) 50) .leftDown =
        sampleState [placeholder] false false (50 : ℝ) 50) :=
  ⟨⟨rfl, rfl,
      ((placing_state_machine Real.sqrt ⟨0, 0⟩ ⟨800, 600⟩
        (sampleState [placeholder] true false (50 : ℝ) 50)).1 rfl rfl).1
        (by norm_num [sampleState]),
      ((placing_state_machine Real.sqrt ⟨0, 0⟩ ⟨800, 600⟩
        (sampleState [placeholder] true false (50 : ℝ) 50)).1 rfl rfl).2.2.2.2.1⟩,
    ⟨rfl, rfl,
      ((placing_state_machine Real.sqrt ⟨0, 0⟩ ⟨800, 600⟩
        (sampleState [placeholder] false false (50 : ℝ) 50)).2 rfl rfl).1⟩⟩

/-- C4. Two dots with centre distance at most 20: after one frame of the force
loop both velocities are (0,0) and positions and accelerations are as before,
whatever the charges, velocities, accelerations, constant and extent. -/
theorem collision_zeroes_velocities (sqrt : F → F) (k : F) (extent : ImVec2 F)
    (a b : dot_t F)
    (hnear : vecLength sqrt (ImVec2.sub b.position a.position) ≤ 20) :
    integrate sqrt k extent [a, b] =
      [⟨a.value, a.position, ⟨0, 0⟩, a.acceleration⟩,
        ⟨b.value, b.position, ⟨0, 0⟩, b.acceleration⟩] := by
  rw [integrate_two, pairStep_two_near sqrt k extent a b hnear]

/-- Witness of C4: dots at (100,100) and (112,116), distance exactly 20, moving
and accelerating, with constant 3 and extent 800 by 600. -/
theorem collision_zeroes_velocities_witness :
    vecLength Real.sqrt (ImVec2.sub (⟨112, 116⟩ : ImVec2 ℝ) ⟨100, 100⟩) ≤ 20 ∧
    integrate Real.sqrt (3 : ℝ) ⟨800, 600⟩
        [⟨5, ⟨100, 100⟩, ⟨1, 2⟩, ⟨3, 4⟩⟩, ⟨-7, ⟨112, 116⟩, ⟨-1, 0⟩, ⟨0, 6⟩⟩] =
      [⟨5, ⟨100, 100⟩, ⟨0, 0⟩, ⟨3, 4⟩⟩, ⟨-7, ⟨112, 116⟩, ⟨0, 0⟩, ⟨0, 6⟩⟩] := by
  have hnear : vecLength Real.sqrt (ImVec2.sub (⟨112, 116⟩ : ImVec2 ℝ) ⟨100, 100⟩) ≤ 20 := by
    simp only [vecLength, ImVec2.sub, ImVec2.add, ImVec2.neg]
    rw [Real.sqrt_le_iff]
    norm_num
  exact ⟨hnear, collision_zeroes_velocities Real.sqrt 3 ⟨800, 600⟩
    ⟨5, ⟨100, 100⟩, ⟨1, 2⟩, ⟨3, 4⟩⟩ ⟨-7, ⟨112, 116⟩, ⟨-1, 0⟩, ⟨0, 6⟩⟩ hnear⟩

/-- C7 (failing input). The temporary dot and two dots of charge 5 placed at
(100,100) and (200,100), constant 1, extent 800 by 600.  The first frame leaves
accelerations of -1/32 and 1/32 along x.  The second frame, whose pair vector
is again (-1/32, 0), ends with accelerations -1/16 and 1/16: the old values
were kept and added to.  Started from the same dots with the acceleration
fields cleared, the same frame ends with -1/32 and 1/32. -/
theorem acceleration_kept_across_frames :
    integrate Real.sqrt (1 : ℝ) ⟨800, 600⟩
        [placeholder, restingDot 5 100 100, restingDot 5 200 100] =
      [placeholder, ⟨5, ⟨100 - 1 / 32, 100⟩, ⟨-1 / 32, 0⟩, ⟨-1 / 32, 0⟩⟩,
        ⟨5, ⟨200 + 1 / 32, 100⟩, ⟨1 / 32, 0⟩, ⟨1 / 32, 0⟩⟩] ∧
    integrate Real.sqrt (1 : ℝ) ⟨800, 600⟩
        [placeholder, ⟨5, ⟨100 - 1 / 32, 100⟩, ⟨-1 / 32, 0⟩, ⟨-1 / 32, 0⟩⟩,
          ⟨5, ⟨200 + 1 / 32, 100⟩, ⟨1 / 32, 0⟩, ⟨1 / 32, 0⟩⟩] =
      [placeholder, ⟨5, ⟨100 - 7 / 32, 100⟩, ⟨-1 / 8, 0⟩, ⟨-1 / 16, 0⟩⟩,
        ⟨5, ⟨200 + 7 / 32, 100⟩, ⟨1 / 8, 0⟩, ⟨1 / 16, 0⟩⟩] ∧
    pairVector (1 : ℝ) ⟨800, 600⟩ 5 5 (1603 / 16) ⟨1603 / 16, 0⟩ = ⟨-1 / 32, 0⟩ ∧
    integrate Real.sqrt (1 : ℝ) ⟨800, 600⟩
        [placeholder, ⟨5, ⟨100 - 1 / 32, 100⟩, ⟨-1 / 32, 0⟩, ⟨0, 0⟩⟩,
          ⟨5, ⟨200 + 1 / 32, 100⟩, ⟨1 / 32, 0⟩, ⟨0, 0⟩⟩] =
      [placeholder, ⟨5, ⟨100 - 1 / 8, 100⟩, ⟨-1 / 16, 0⟩, ⟨-1 / 32, 0⟩⟩,
        ⟨5, ⟨200 + 1 / 8, 100⟩, ⟨1 / 16, 0⟩, ⟨1 / 32, 0⟩⟩] := by
  refine ⟨frame_one_three_dots Real.sqrt isSqrt_real,
    frame_two_three_dots Real.sqrt isSqrt_real, ?_,
    frame_two_three_dots_cleared Real.sqrt isSqrt_real⟩
  norm_num [pairVector, coulombsForce, isVecOrientMinus, ImVec2.mulAssign, ImVec2.divAssign,
    ImVec2.neg]

end Claims

section IeeeLemmas

variable {F : Type} [LinearOrderedField F]

open FloatVal

/-! ### Float operations on finite values -/

theorem floatVal_div_fin (x y : F) (hy : y ≠ 0) :
    FloatVal.div (fin x) (fin y) = fin (x / y) := by
  simp [FloatVal.div, hy]

theorem floatVal_isFinite_iff (a : FloatVal F) : IsFinite a ↔ ∃ x, a = fin x := by
  cases a <;> simp [IsFinite]

/-! ### On finite values the float engine agrees with the exact model -/

theorem ieee_vecLength_lift (sqrt : F → F) (p q : ImVec2 F) :
    Ieee.vecLength sqrt (Ieee.vecSub (Ieee.liftVec p) (Ieee.liftVec q)) =
      fin (vecLength sqrt (ImVec2.sub p q)) := by
  have h : ¬ (p.x + -q.x) * (p.x + -q.x) + (p.y + -q.y) * (p.y + -q.y) < 0 :=
    not_lt.mpr (add_nonneg (mul_self_nonneg _) (mul_self_nonneg _))
  simp [Ieee.vecLength, Ieee.vecSub, Ieee.vecAdd, Ieee.vecNeg, Ieee.liftVec, vecLength,
    ImVec2.sub, ImVec2.add, ImVec2.neg, FloatVal.add, FloatVal.mul, FloatVal.neg,
    FloatVal.sqrtVal, h]

theorem ieee_pairVector_lift (k ex ey qi qj r : F) (d : ImVec2 F) (hr : r ≠ 0)
    (hx : ex ≠ 0) (hy : ey ≠ 0) :
    Ieee.pairVector (fin k) ⟨fin ex, fin ey⟩ (fin qi) (fin qj) (fin r) (Ieee.liftVec d) =
      Ieee.liftVec (pairVector k ⟨ex, ey⟩ qi qj r d) := by
  have hminus : Ieee.isVecOrientMinus (fin qi) (fin qj) ↔ isVecOrientMinus qi qj := by
    simp [Ieee.isVecOrientMinus, isVecOrientMinus, FloatVal.lt]
  unfold Ieee.pairVector pairVector
  by_cases h : isVecOrientMinus qi qj
  · simp [h, hminus, Ieee.coulombsForce, coulombsForce, Ieee.mulAssign, Ieee.divAssign,
      Ieee.vecNeg, Ieee.liftVec, ImVec2.mulAssign, ImVec2.divAssign, ImVec2.neg,
      FloatVal.mul, FloatVal.div, FloatVal.abs, FloatVal.neg, hr, hx, hy]
  · simp [h, hminus, Ieee.coulombsForce, coulombsForce, Ieee.mulAssign, Ieee.divAssign,
      Ieee.liftVec, ImVec2.mulAssign, ImVec2.divAssign,
      FloatVal.mul, FloatVal.div, FloatVal.abs, hr, hx, hy]

/-- The pair body on finite dots, with a finite constant and a finite extent
that is non-zero in both axes, computes the finite dots of the exact model. -/
theorem ieee_pairStep_lift (sqrt : F → F) (k ex ey : F) (hx : ex ≠ 0) (hy : ey ≠ 0)
    (i j : Nat) (ds : List (dot_t F)) :
    Ieee.pairStep sqrt (fin k) ⟨fin ex, fin ey⟩ i j (ds.map Ieee.liftDot) =
      (pairStep sqrt k ⟨ex, ey⟩ i j ds).map Ieee.liftDot := by
  unfold Ieee.pairStep pairStep
  rw [List.getElem?_map, List.getElem?_map]
  cases hi : ds[i]? with
  | none => simp
  | some di =>
    cases hj : ds[j]? with
    | none => simp
    | some dj =>
      simp only [Option.map_some']
      have hlen : Ieee.vecLength sqrt
          (Ieee.vecSub (Ieee.liftDot dj).position (Ieee.liftDot di).position) =
          fin (vecLength sqrt (ImVec2.sub dj.position di.position)) :=
        ieee_vecLength_lift sqrt dj.position di.position
      have h20 : (2 : F) * SIM_DOT_RADIUS = 20 := by unfold SIM_DOT_RADIUS; norm_num
      rw [hlen, h20]
      by_cases hnear : vecLength sqrt (ImVec2.sub dj.position di.position) ≤ 20
      · have hnearV : FloatVal.le
            (fin (vecLength sqrt (ImVec2.sub dj.position di.position))) (fin 20) := hnear
        simp only [hnear, hnearV, if_true, List.map_set]
        rfl
      · have hnearV : ¬ FloatVal.le
            (fin (vecLength sqrt (ImVec2.sub dj.position di.position))) (fin 20) := hnear
        have hr : vecLength sqrt (ImVec2.sub dj.position di.position) ≠ 0 := by
          intro h0
          rw [h0] at hnear
          exact hnear (by norm_num)
        have hv := ieee_pairVector_lift k ex ey di.value dj.value _
          (ImVec2.sub dj.position di.position) hr hx hy
        simp only [hnear, hnearV, if_false, List.map_set]
        have hsub : Ieee.vecSub (Ieee.liftDot dj).position (Ieee.liftDot di).position =
            Ieee.liftVec (ImVec2.sub dj.position di.position) := by
          simp [Ieee.vecSub, Ieee.vecAdd, Ieee.vecNeg, Ieee.liftDot, Ieee.liftVec, ImVec2.sub,
            ImVec2.add, ImVec2.neg, FloatVal.add, FloatVal.neg]
        rw [hsub]
        have hvi : (Ieee.liftDot di).value = fin di.value := rfl
        have hvj : (Ieee.liftDot dj).value = fin dj.value := rfl
        rw [hvi, hvj, hv]
        rfl

theorem ieee_innerLoop_lift (sqrt : F → F) (k ex ey : F) (hx : ex ≠ 0) (hy : ey ≠ 0)
    (i : Nat) :
    ∀ (fuel j : Nat) (ds : List (dot_t F)),
      Ieee.innerLoop sqrt (fin k) ⟨fin ex, fin ey⟩ i fuel j (ds.map Ieee.liftDot) =
        (innerLoop sqrt k ⟨ex, ey⟩ i fuel j ds).map Ieee.liftDot := by
  intro fuel
  induction fuel with
  | zero => intro j ds; rfl
  | succ fuel ih =>
    intro j ds
    unfold Ieee.innerLoop innerLoop
    rw [List.length_map]
    split
    · rw [ieee_pairStep_lift sqrt k ex ey hx hy, ih]
    · rfl

theorem ieee_outerLoop_lift (sqrt : F → F) (k ex ey : F) (hx : ex ≠ 0) (hy : ey ≠ 0) :
    ∀ (fuel i : Nat) (ds : List (dot_t F)),
      Ieee.outerLoop sqrt (fin k) ⟨fin ex, fin ey⟩ fuel i (ds.map Ieee.liftDot) =
        (outerLoop sqrt k ⟨ex, ey⟩ fuel i ds).map Ieee.liftDot := by
  intro fuel
  induction fuel with
  | zero => intro i ds; rfl
  | succ fuel ih =>
    intro i ds
    unfold Ieee.outerLoop outerLoop
    rw [List.length_map]
    split
    · rw [ieee_innerLoop_lift sqrt k ex ey hx hy, ih]
    · rfl

/-- One frame of the force loop on finite dots, with a finite constant and a
finite extent that is non-zero in both axes, computes the finite dots of the
exact model. -/
theorem ieee_integrate_lift (sqrt : F → F) (k ex ey : F) (hx : ex ≠ 0) (hy : ey ≠ 0)
    (ds : List (dot_t F)) :
    Ieee.integrate sqrt (fin k) ⟨fin ex, fin ey⟩ (ds.map Ieee.liftDot) =
      (integrate sqrt k ⟨ex, ey⟩ ds).map Ieee.liftDot := by
  unfold Ieee.integrate integrate
  rw [List.length_map]
  exact ieee_outerLoop_lift sqrt k ex ey hx hy _ 0 ds

/-- A finite dot is the image of its numbers. -/
theorem ieee_liftDot_exactDot (d : dot_t (FloatVal F)) (h : Ieee.DotFinite d) :
    Ieee.liftDot (Ieee.exactDot d) = d := by
  obtain ⟨q, ⟨px, py⟩, ⟨vx, vy⟩, ⟨ax, ay⟩⟩ := d
  obtain ⟨hq, ⟨hpx, hpy⟩, ⟨hvx, hvy⟩, ⟨hax, hay⟩⟩ := h
  simp only at hq hpx hpy hvx hvy hax hay
  obtain ⟨q, rfl⟩ := (floatVal_isFinite_iff q).1 hq
  obtain ⟨px, rfl⟩ := (floatVal_isFinite_iff px).1 hpx
  obtain ⟨py, rfl⟩ := (floatVal_isFinite_iff py).1 hpy
  obtain ⟨vx, rfl⟩ := (floatVal_isFinite_iff vx).1 hvx
  obtain ⟨vy, rfl⟩ := (floatVal_isFinite_iff vy).1 hvy
  obtain ⟨ax, rfl⟩ := (floatVal_isFinite_iff ax).1 hax
  obtain ⟨ay, rfl⟩ := (floatVal_isFinite_iff ay).1 hay
  rfl

/-- A list of finite dots is the image of a list of the exact model. -/
theorem ieee_finite_list (dots : List (dot_t (FloatVal F)))
    (h : ∀ d ∈ dots, Ieee.DotFinite d) :
    (dots.map Ieee.exactDot).map Ieee.liftDot = dots := by
  rw [List.map_map]
  conv_rhs => rw [← List.map_id dots]
  apply List.map_congr_left
  intro d hd
  exact ieee_liftDot_exactDot d (h d hd)

/-! ### The float loops never run out of iterations -/

theorem ieee_pairStep_length (sqrt : F → F) (k : FloatVal F) (extent : ImVec2 (FloatVal F))
    (i j : Nat) (dots : List (dot_t (FloatVal F))) :
    (Ieee.pairStep sqrt k extent i j dots).length = dots.length := by
  unfold Ieee.pairStep
  split
  · dsimp only
    split <;> simp
  · rfl

theorem ieee_innerLoop_length (sqrt : F → F) (k : FloatVal F) (extent : ImVec2 (FloatVal F))
    (i : Nat) :
    ∀ (fuel j : Nat) (dots : List (dot_t (FloatVal F))),
      (Ieee.innerLoop sqrt k extent i fuel j dots).length = dots.length := by
  intro fuel
  induction fuel with
  | zero => intro j dots; rfl
  | succ fuel ih =>
    intro j dots
    unfold Ieee.innerLoop
    split
    · rw [ih, ieee_pairStep_length]
    · rfl

/-- With at least `dots.length - j` iterations allowed the inner float loop
stops by its own test. -/
theorem ieee_innerLoop_fuel (sqrt : F → F) (k : FloatVal F) (extent : ImVec2 (FloatVal F))
    (i : Nat) :
    ∀ (f1 f2 j : Nat) (dots : List (dot_t (FloatVal F))),
      dots.length - j ≤ f1 → dots.length - j ≤ f2 →
      Ieee.innerLoop sqrt k extent i f1 j dots = Ieee.innerLoop sqrt k extent i f2 j dots := by
  intro f1
  induction f1 with
  | zero =>
    intro f2 j dots h1 _
    have hj : ¬ j < dots.length := by omega
    cases f2 with
    | zero => rfl
    | succ f2 => simp [Ieee.innerLoop, hj]
  | succ f1 ih =>
    intro f2 j dots h1 h2
    by_cases hj : j < dots.length
    · cases f2 with
      | zero => omega
      | succ f2 =>
        simp only [Ieee.innerLoop, hj, if_true]
        apply ih <;> rw [ieee_pairStep_length] <;> omega
    · cases f2 with
      | zero => simp [Ieee.innerLoop, hj]
      | succ f2 => simp [Ieee.innerLoop, hj]

/-- With at least `dots.length - i` iterations allowed the outer float loop
stops by its own test. -/
theorem ieee_outerLoop_fuel (sqrt : F → F) (k : FloatVal F) (extent : ImVec2 (FloatVal F)) :
    ∀ (f1 f2 i : Nat) (dots : List (dot_t (FloatVal F))),
      dots.length - i ≤ f1 → dots.length - i ≤ f2 →
      Ieee.outerLoop sqrt k extent f1 i dots = Ieee.outerLoop sqrt k extent f2 i dots := by
  intro f1
  induction f1 with
  | zero =>
    intro f2 i dots h1 _
    have hi : ¬ i < dots.length := by omega
    cases f2 with
    | zero => rfl
    | succ f2 => simp [Ieee.outerLoop, hi]
  | succ f1 ih =>
    intro f2 i dots h1 h2
    by_cases hi : i < dots.length
    · cases f2 with
      | zero => omega
      | succ f2 =>
        simp only [Ieee.outerLoop, hi, if_true]
        apply ih <;> rw [ieee_innerLoop_length] <;> omega
    · cases f2 with
      | zero => simp [Ieee.outerLoop, hi]
      | succ f2 => simp [Ieee.outerLoop, hi]

/-- With at least `dots.length - i` iterations allowed the float drawing loop
stops by its own test. -/
theorem ieee_pruneLoop_fuel (regionMin regionMax : ImVec2 (FloatVal F)) :
    ∀ (f1 f2 i : Nat) (dots : List (dot_t (FloatVal F))),
      dots.length - i ≤ f1 → dots.length - i ≤ f2 →
      Ieee.pruneLoop regionMin regionMax f1 i dots =
        Ieee.pruneLoop regionMin regionMax f2 i dots := by
  intro f1
  induction f1 with
  | zero =>
    intro f2 i dots h1 _
    have hi : dots[i]? = none := by
      rw [List.getElem?_eq_none_iff]; omega
    cases f2 with
    | zero => rfl
    | succ f2 => simp [Ieee.pruneLoop, hi]
  | succ f1 ih =>
    intro f2 i dots h1 h2
    cases f2 with
    | zero =>
      have hi : dots[i]? = none := by
        rw [List.getElem?_eq_none_iff]; omega
      simp [Ieee.pruneLoop, hi]
    | succ f2 =>
      unfold Ieee.pruneLoop
      cases hd : dots[i]? with
      | none => rfl
      | some d =>
        have hlt : i < dots.length := by
          by_contra hge
          have : dots[i]? = none := by rw [List.getElem?_eq_none_iff]; omega
          rw [this] at hd; cases hd
        simp only []
        split
        · apply ih <;> rw [List.length_eraseIdx] <;> simp [hlt] <;> omega
        · apply ih <;> omega

end IeeeLemmas

section IeeeZero

variable {F : Type} [LinearOrderedField F]

open FloatVal

/-! ### Float arithmetic with a zero -/

theorem floatVal_add_zero (a : FloatVal F) : FloatVal.add a (fin 0) = a := by
  cases a <;> simp [FloatVal.add]

theorem floatVal_zero_add_zero : FloatVal.add (fin (0 : F)) (fin 0) = fin 0 := by
  simp [FloatVal.add]

theorem floatVal_zero_div (r : FloatVal F) (hnan : r ≠ nan) (hzero : r ≠ fin 0) :
    FloatVal.div (fin 0) r = fin 0 := by
  cases r with
  | fin y =>
    have hy : y ≠ 0 := fun h => hzero (by rw [h])
    simp [FloatVal.div, hy]
  | pinf => rfl
  | ninf => rfl
  | nan => exact absurd rfl hnan

theorem floatVal_lt_not_nan (c : F) (r : FloatVal F) (h : FloatVal.lt (fin c) r) :
    r ≠ nan := by
  intro hr; rw [hr] at h; exact h

theorem floatVal_lt_not_zero (c : F) (hc : 0 ≤ c) (r : FloatVal F)
    (h : FloatVal.lt (fin c) r) : r ≠ fin 0 := by
  intro hr; rw [hr] at h
  exact absurd (show c < 0 from h) (not_lt.mpr hc)

theorem floatVal_not_le_of_lt (a b : FloatVal F) (h : FloatVal.lt a b) : ¬ FloatVal.le b a := by
  cases a <;> cases b <;> simp_all [FloatVal.lt, FloatVal.le]

theorem floatVal_not_lt_of_le (a b : FloatVal F) (h : FloatVal.le a b) : ¬ FloatVal.lt b a := by
  cases a <;> cases b <;> simp_all [FloatVal.lt, FloatVal.le]

/-- The force magnitude of a pair is 0 when one charge is 0, the other charge
and the constant are finite, and the distance is neither NaN nor 0. -/
theorem ieee_coulombsForce_zero_charge (k qi qj r : FloatVal F) (hk : IsFinite k)
    (hqi : IsFinite qi) (hqj : IsFinite qj) (hzero : qi = fin 0 ∨ qj = fin 0)
    (hnan : r ≠ nan) (hr0 : r ≠ fin 0) :
    Ieee.coulombsForce k qi qj r = fin 0 := by
  obtain ⟨k, rfl⟩ := (floatVal_isFinite_iff k).1 hk
  obtain ⟨qi, rfl⟩ := (floatVal_isFinite_iff qi).1 hqi
  obtain ⟨qj, rfl⟩ := (floatVal_isFinite_iff qj).1 hqj
  have hprod : FloatVal.mul (FloatVal.abs (fin qi)) (FloatVal.abs (fin qj)) = fin (0 : F) := by
    rcases hzero with h | h
    · have : qi = 0 := by injection h
      simp [FloatVal.mul, FloatVal.abs, this]
    · have : qj = 0 := by injection h
      simp [FloatVal.mul, FloatVal.abs, this]
  unfold Ieee.coulombsForce
  rw [hprod, floatVal_zero_div r hnan hr0]
  simp [FloatVal.mul]

/-- The vector added to the accelerations is (0,0) when the force magnitude is
0, the difference vector is finite and the extent is neither NaN nor 0 in both
axes. -/
theorem ieee_pairVector_zero (k : FloatVal F) (extent : ImVec2 (FloatVal F))
    (qi qj r : FloatVal F) (d : ImVec2 (FloatVal F))
    (hforce : Ieee.coulombsForce k qi qj r = fin 0) (hd : Ieee.VecFinite d)
    (hex : extent.x ≠ nan ∧ extent.x ≠ fin 0) (hey : extent.y ≠ nan ∧ extent.y ≠ fin 0) :
    Ieee.pairVector k extent qi qj r d = ⟨fin 0, fin 0⟩ ∨
      Ieee.pairVector k extent qi qj r d = Ieee.vecNeg ⟨fin 0, fin 0⟩ := by
  obtain ⟨dx, dy⟩ := d
  obtain ⟨hdx, hdy⟩ := hd
  simp only at hdx hdy
  obtain ⟨dx, rfl⟩ := (floatVal_isFinite_iff dx).1 hdx
  obtain ⟨dy, rfl⟩ := (floatVal_isFinite_iff dy).1 hdy
  have hscaled : Ieee.divAssign (Ieee.mulAssign ⟨fin dx, fin dy⟩ (fin 0)) extent =
      (⟨fin 0, fin 0⟩ : ImVec2 (FloatVal F)) := by
    simp only [Ieee.divAssign, Ieee.mulAssign, FloatVal.mul, mul_zero]
    rw [floatVal_zero_div extent.x hex.1 hex.2, floatVal_zero_div extent.y hey.1 hey.2]
  unfold Ieee.pairVector
  rw [hforce]
  simp only [hscaled]
  split
  · right; rfl
  · left; rfl

theorem ieee_vecNeg_zero : Ieee.vecNeg (⟨fin 0, fin 0⟩ : ImVec2 (FloatVal F)) = ⟨fin 0, fin 0⟩ := by
  simp [Ieee.vecNeg, FloatVal.neg]

theorem ieee_addAssign_zero (a : ImVec2 (FloatVal F)) :
    Ieee.addAssign a ⟨fin 0, fin 0⟩ = a := by
  simp [Ieee.addAssign, floatVal_add_zero]

theorem ieee_subAssign_zero (a : ImVec2 (FloatVal F)) :
    Ieee.subAssign a ⟨fin 0, fin 0⟩ = a := by
  simp [Ieee.subAssign, ieee_vecNeg_zero, ieee_addAssign_zero]

theorem ieee_vecSub_finite (p q : ImVec2 (FloatVal F)) (hp : Ieee.VecFinite p)
    (hq : Ieee.VecFinite q) : Ieee.VecFinite (Ieee.vecSub p q) := by
  obtain ⟨px, py⟩ := p
  obtain ⟨qx, qy⟩ := q
  obtain ⟨hpx, hpy⟩ := hp
  obtain ⟨hqx, hqy⟩ := hq
  simp only at hpx hpy hqx hqy
  obtain ⟨px, rfl⟩ := (floatVal_isFinite_iff px).1 hpx
  obtain ⟨py, rfl⟩ := (floatVal_isFinite_iff py).1 hpy
  obtain ⟨qx, rfl⟩ := (floatVal_isFinite_iff qx).1 hqx
  obtain ⟨qy, rfl⟩ := (floatVal_isFinite_iff qy).1 hqy
  exact ⟨trivial, trivial⟩

theorem floatVal_absLe_finite (a : FloatVal F) (c : F) (h : FloatVal.AbsLe a c) :
    IsFinite a := by
  cases a with
  | fin x => trivial
  | pinf => exact h
  | ninf => exact h
  | nan => exact h

theorem ieee_vecInRange_finite (v : ImVec2 (FloatVal F)) (h : Ieee.VecInRange v) :
    Ieee.VecFinite v :=
  ⟨floatVal_absLe_finite _ _ h.1, floatVal_absLe_finite _ _ h.2⟩

/-- The float pair body when both indices are valid and the pair does not pass
the collision test. -/
theorem ieee_pairStep_far (sqrt : F → F) (k : FloatVal F) (extent : ImVec2 (FloatVal F))
    (i j : Nat) (dots : List (dot_t (FloatVal F))) (hi : i < dots.length)
    (hj : j < dots.length)
    (h : ¬ FloatVal.le (Ieee.vecLength sqrt (Ieee.vecSub dots[j].position dots[i].position))
      (fin 20)) :
    Ieee.pairStep sqrt k extent i j dots =
      (dots.set i
        ⟨dots[i].value,
          Ieee.addAssign dots[i].position (Ieee.addAssign dots[i].velocity
            (Ieee.addAssign dots[i].acceleration (Ieee.pairVector k extent dots[i].value
              dots[j].value
              (Ieee.vecLength sqrt (Ieee.vecSub dots[j].position dots[i].position))
              (Ieee.vecSub dots[j].position dots[i].position)))),
          Ieee.addAssign dots[i].velocity
            (Ieee.addAssign dots[i].acceleration (Ieee.pairVector k extent dots[i].value
              dots[j].value
              (Ieee.vecLength sqrt (Ieee.vecSub dots[j].position dots[i].position))
              (Ieee.vecSub dots[j].position dots[i].position))),
          Ieee.addAssign dots[i].acceleration (Ieee.pairVector k extent dots[i].value
              dots[j].value
              (Ieee.vecLength sqrt (Ieee.vecSub dots[j].position dots[i].position))
              (Ieee.vecSub dots[j].position dots[i].position))⟩).set j
        ⟨dots[j].value,
          Ieee.addAssign dots[j].position (Ieee.addAssign dots[j].velocity
            (Ieee.subAssign dots[j].acceleration (Ieee.pairVector k extent dots[i].value
              dots[j].value
              (Ieee.vecLength sqrt (Ieee.vecSub dots[j].position dots[i].position))
              (Ieee.vecSub dots[j].position dots[i].position)))),
          Ieee.addAssign dots[j].velocity
            (Ieee.subAssign dots[j].acceleration (Ieee.pairVector k extent dots[i].value
              dots[j].value
              (Ieee.vecLength sqrt (Ieee.vecSub dots[j].position dots[i].position))
              (Ieee.vecSub dots[j].position dots[i].position))),
          Ieee.subAssign dots[j].acceleration (Ieee.pairVector k extent dots[i].value
              dots[j].value
              (Ieee.vecLength sqrt (Ieee.vecSub dots[j].position dots[i].position))
              (Ieee.vecSub dots[j].position dots[i].position))⟩ := by
  unfold Ieee.pairStep
  rw [List.getElem?_eq_getElem hi, List.getElem?_eq_getElem hj]
  simp [h]

end IeeeZero

section IeeeClaims

variable {F : Type} [LinearOrderedField F]

open FloatVal

/-- C8 (amended). A pair `i < j` of the force loop that does not collide
(20 < r) and has a zero charge on one side, with a finite constant, finite
charges and coordinates of at most 10^9 in absolute value: the force magnitude
is 0 and the pair body leaves both accelerations as they were, for every extent
that is neither NaN nor 0 in either axis. -/
theorem ieee_zero_charge_no_force (sqrt : F → F) (k : FloatVal F)
    (extent : ImVec2 (FloatVal F)) (dots : List (dot_t (FloatVal F))) (i j : Nat)
    (hij : i < j) (hi : i < dots.length) (hj : j < dots.length)
    (hzero : dots[i].value = fin 0 ∨ dots[j].value = fin 0)
    (hfar : FloatVal.lt (fin 20)
      (Ieee.vecLength sqrt (Ieee.vecSub dots[j].position dots[i].position)))
    (hk : IsFinite k)
    (hqi : IsFinite dots[i].value) (hqj : IsFinite dots[j].value)
    (hpi : Ieee.VecInRange dots[i].position) (hpj : Ieee.VecInRange dots[j].position)
    (hex : extent.x ≠ nan ∧ extent.x ≠ fin 0) (hey : extent.y ≠ nan ∧ extent.y ≠ fin 0) :
    Ieee.coulombsForce k dots[i].value dots[j].value
        (Ieee.vecLength sqrt (Ieee.vecSub dots[j].position dots[i].position)) = fin 0 ∧
    ((Ieee.pairStep sqrt k extent i j dots)[i]?).map (fun d => d.acceleration) =
        some dots[i].acceleration ∧
    ((Ieee.pairStep sqrt k extent i j dots)[j]?).map (fun d => d.acceleration) =
        some dots[j].acceleration := by
  have hforce := ieee_coulombsForce_zero_charge k dots[i].value dots[j].value _ hk hqi hqj hzero
    (floatVal_lt_not_nan 20 _ hfar) (floatVal_lt_not_zero 20 (by norm_num) _ hfar)
  have hv0 : Ieee.pairVector k extent dots[i].value dots[j].value
      (Ieee.vecLength sqrt (Ieee.vecSub dots[j].position dots[i].position))
      (Ieee.vecSub dots[j].position dots[i].position) = ⟨fin 0, fin 0⟩ := by
    rcases ieee_pairVector_zero k extent dots[i].value dots[j].value _ _ hforce
      (ieee_vecSub_finite _ _ (ieee_vecInRange_finite _ hpj) (ieee_vecInRange_finite _ hpi))
      hex hey with h | h
    · exact h
    · rw [h, ieee_vecNeg_zero]
  have hstep := ieee_pairStep_far sqrt k extent i j dots hi hj (floatVal_not_le_of_lt _ _ hfar)
  rw [hv0] at hstep
  refine ⟨hforce, ?_, ?_⟩
  · rw [hstep]
    have hne : j ≠ i := by omega
    rw [List.getElem?_set_ne hne, List.getElem?_set_self hi]
    simp [ieee_addAssign_zero]
  · rw [hstep]
    rw [List.getElem?_set_self (by simpa using hj)]
    simp [ieee_subAssign_zero]

end IeeeClaims

section IeeePlaceholder

variable {F : Type} [LinearOrderedField F]

open FloatVal

/-! ### The temporary dot stays at the front of the float list -/

theorem ieee_exactDot_placeholder :
    Ieee.exactDot (Ieee.placeholder : dot_t (FloatVal F)) = placeholder := rfl

theorem ieee_liftDot_placeholder :
    Ieee.liftDot (placeholder : dot_t F) = Ieee.placeholder := rfl

/-- One frame of the force loop on finite dots, with a finite constant and a
finite extent that is non-zero in both axes, leaves a temporary dot at index 0
as it is. -/
theorem ieee_integrate_head (sqrt : F → F) (k ex ey : F) (hx : ex ≠ 0) (hy : ey ≠ 0)
    (rest : List (dot_t (FloatVal F)))
    (hfin : ∀ d ∈ Ieee.placeholder :: rest, Ieee.DotFinite d) :
    ∃ rest1, Ieee.integrate sqrt (fin k) ⟨fin ex, fin ey⟩ (Ieee.placeholder :: rest) =
      Ieee.placeholder :: rest1 := by
  have hlist := ieee_finite_list (Ieee.placeholder :: rest) hfin
  rw [← hlist, ieee_integrate_lift sqrt k ex ey hx hy]
  simp only [List.map_cons, ieee_exactDot_placeholder]
  obtain ⟨rest1, h1⟩ := integrate_head sqrt k ⟨ex, ey⟩ (rest.map Ieee.exactDot)
  rw [h1]
  exact ⟨rest1.map Ieee.liftDot, rfl⟩

/-- A pointer with non-negative coordinates is further than 10 from the
temporary dot, also when a coordinate is infinite. -/
theorem ieee_placeholder_not_underPointer (sqrt : F → F) (hs : IsSqrt sqrt)
    (mousePos : ImVec2 (FloatVal F))
    (hx : FloatVal.le (fin 0) mousePos.x) (hy : FloatVal.le (fin 0) mousePos.y) :
    ¬ Ieee.underPointer sqrt mousePos (Ieee.placeholder : dot_t (FloatVal F)) := by
  obtain ⟨mx, my⟩ := mousePos
  simp only at hx hy
  have hsq : ∀ x : F, 0 ≤ x → ∀ c : F, 0 ≤ c →
      ¬ (-50 + -x) * (-50 + -x) + c < 0 := by
    intro x _ c hc
    exact not_lt.mpr (add_nonneg (mul_self_nonneg _) hc)
  have hbig : ∀ x y : F, 0 ≤ x → 0 ≤ y →
      ¬ sqrt ((-50 + -x) * (-50 + -x) + (-50 + -y) * (-50 + -y)) ≤ 10 := by
    intro x y hx0 hy0
    apply not_le.mpr
    apply hs.lt_sqrt (by norm_num)
    nlinarith [mul_nonneg hx0 hx0, mul_nonneg hy0 hy0]
  cases mx with
  | fin x =>
    have hx0 : (0 : F) ≤ x := hx
    cases my with
    | fin y =>
      have hy0 : (0 : F) ≤ y := hy
      have h1 := hsq x hx0 _ (mul_self_nonneg (-50 + -y))
      simp [Ieee.underPointer, Ieee.vecLength, Ieee.vecSub, Ieee.vecAdd, Ieee.vecNeg,
        Ieee.placeholder, FloatVal.add, FloatVal.neg, FloatVal.mul, FloatVal.sqrtVal,
        FloatVal.le, h1, hbig x y hx0 hy0]
    | pinf =>
      simp [Ieee.underPointer, Ieee.vecLength, Ieee.vecSub, Ieee.vecAdd, Ieee.vecNeg,
        Ieee.placeholder, FloatVal.add, FloatVal.neg, FloatVal.mul, FloatVal.sqrtVal,
        FloatVal.le]
    | ninf => exact absurd hy (by simp [FloatVal.le])
    | nan => exact absurd hy (by simp [FloatVal.le])
  | pinf =>
    cases my with
    | fin y =>
      simp [Ieee.underPointer, Ieee.vecLength, Ieee.vecSub, Ieee.vecAdd, Ieee.vecNeg,
        Ieee.placeholder, FloatVal.add, FloatVal.neg, FloatVal.mul, FloatVal.sqrtVal,
        FloatVal.le]
    | pinf =>
      simp [Ieee.underPointer, Ieee.vecLength, Ieee.vecSub, Ieee.vecAdd, Ieee.vecNeg,
        Ieee.placeholder, FloatVal.add, FloatVal.neg, FloatVal.mul, FloatVal.sqrtVal,
        FloatVal.le]
    | ninf => exact absurd hy (by simp [FloatVal.le])
    | nan => exact absurd hy (by simp [FloatVal.le])
  | ninf => exact absurd hx (by simp [FloatVal.le])
  | nan => exact absurd hx (by simp [FloatVal.le])

/-- The reverse scan keeps a first dot that is not under the pointer. -/
theorem ieee_removeLoop_head (sqrt : F → F) (mousePos : ImVec2 (FloatVal F))
    (p : dot_t (FloatVal F)) (hp : ¬ Ieee.underPointer sqrt mousePos p)
    (rest : List (dot_t (FloatVal F))) :
    ∀ n : Nat, ∃ rest1, Ieee.removeLoop sqrt mousePos (p :: rest) n = p :: rest1 := by
  intro n
  induction n with
  | zero => exact ⟨rest, rfl⟩
  | succ n ih =>
    unfold Ieee.removeLoop
    cases n with
    | zero =>
      simp only [List.getElem?_cons_zero, hp, if_false]
      exact ⟨rest, rfl⟩
    | succ n1 =>
      simp only [List.getElem?_cons_succ]
      cases hd : rest[n1]? with
      | none => exact ⟨rest, rfl⟩
      | some d =>
        dsimp only
        split
        · exact ⟨rest.eraseIdx n1, rfl⟩
        · exact ih

/-- The placement block keeps the first dot of a non-empty float list. -/
theorem ieee_placementStep_head (spaceStart spaceEnd : ImVec2 (FloatVal F))
    (s : SimState (FloatVal F)) (p : dot_t (FloatVal F)) (rest : List (dot_t (FloatVal F)))
    (h : s.dots = p :: rest) :
    ∃ rest1, (Ieee.placementStep spaceStart spaceEnd s).dots = p :: rest1 := by
  unfold Ieee.placementStep
  split
  · split
    · exact ⟨rest ++ [⟨s.newDotValue, s.mousePos, ⟨fin 0, fin 0⟩, ⟨fin 0, fin 0⟩⟩], by simp [h]⟩
    · exact ⟨rest, h⟩
  · exact ⟨rest, h⟩

/-- The drawing pass keeps a first dot that is within the enlarged rectangle. -/
theorem ieee_pruneLoop_head (regionMin regionMax : ImVec2 (FloatVal F))
    (p : dot_t (FloatVal F)) (hp : ¬ Ieee.outOfBounds regionMin regionMax p) :
    ∀ (fuel i : Nat) (rest : List (dot_t (FloatVal F))),
      ∃ rest1, Ieee.pruneLoop regionMin regionMax fuel i (p :: rest) = p :: rest1 := by
  intro fuel
  induction fuel with
  | zero => intro i rest; exact ⟨rest, rfl⟩
  | succ fuel ih =>
    intro i rest
    unfold Ieee.pruneLoop
    cases i with
    | zero =>
      simp only [List.getElem?_cons_zero, hp, if_false]
      exact ih 1 rest
    | succ i1 =>
      simp only [List.getElem?_cons_succ]
      cases hd : rest[i1]? with
      | none => exact ⟨rest, rfl⟩
      | some d =>
        dsimp only
        split
        · exact ih (i1 + 1 + 1) (rest.eraseIdx i1)
        · exact ih (i1 + 1 + 1) rest

/-- The temporary dot is within the enlarged rectangle when -50 is between
`regionMin - 200` and `regionMax + 200` in both axes. -/
theorem ieee_placeholder_inBounds (regionMin regionMax : ImVec2 (FloatVal F))
    (h1 : FloatVal.le (FloatVal.add regionMin.x (FloatVal.neg (fin 200))) (fin (-50)))
    (h2 : FloatVal.le (fin (-50)) (FloatVal.add regionMax.x (fin 200)))
    (h3 : FloatVal.le (FloatVal.add regionMin.y (FloatVal.neg (fin 200))) (fin (-50)))
    (h4 : FloatVal.le (fin (-50)) (FloatVal.add regionMax.y (fin 200))) :
    ¬ Ieee.outOfBounds regionMin regionMax (Ieee.placeholder : dot_t (FloatVal F)) := by
  simp only [Ieee.outOfBounds, Ieee.placeholder, Ieee.vecSub, Ieee.vecAdd, Ieee.vecNeg, not_or]
  exact ⟨floatVal_not_lt_of_le _ _ h1, floatVal_not_lt_of_le _ _ h3,
    floatVal_not_lt_of_le _ _ h2, floatVal_not_lt_of_le _ _ h4⟩

end IeeePlaceholder

section IeeeClaims2

variable {F : Type} [LinearOrderedField F]

open FloatVal

/-- C10 (amended). Every dot list the program can reach from the initial list
by right clicks with non-negative pointer coordinates, placements, drawing
passes with -50 between `regionMin - 200` and `regionMax + 200` in both axes,
and force frames that run with a finite constant, a finite extent non-zero in
both axes and finite dot fields, still starts with the temporary dot: charge 0,
position (-50,-50), zero velocity and acceleration.  So the list is never empty
and `size - 1` counts the dots after the temporary one. -/
theorem ieee_placeholder_stays_first (sqrt : F → F) (hs : IsSqrt sqrt)
    (dots : List (dot_t (FloatVal F))) (hreach : Ieee.Reachable sqrt dots) :
    ∃ rest, dots = ⟨fin 0, ⟨fin (-50), fin (-50)⟩, ⟨fin 0, fin 0⟩, ⟨fin 0, fin 0⟩⟩ :: rest ∧
      dots ≠ [] ∧ dots.length - 1 = rest.length := by
  have key : ∃ rest, dots = Ieee.placeholder :: rest := by
    induction hreach with
    | init => exact ⟨[], rfl⟩
    | remove mousePos dots hx hy _ ih =>
      obtain ⟨rest, rfl⟩ := ih
      exact ieee_removeLoop_head sqrt mousePos Ieee.placeholder
        (ieee_placeholder_not_underPointer sqrt hs mousePos hx hy) rest _
    | spawn spaceStart spaceEnd s _ ih =>
      obtain ⟨rest, h⟩ := ih
      exact ieee_placementStep_head spaceStart spaceEnd s Ieee.placeholder rest h
    | integrate k ex ey dots hx hy hfin _ ih =>
      obtain ⟨rest, rfl⟩ := ih
      exact ieee_integrate_head sqrt k ex ey hx hy rest hfin
    | prune regionMin regionMax dots h1 h2 h3 h4 _ ih =>
      obtain ⟨rest, rfl⟩ := ih
      exact ieee_pruneLoop_head regionMin regionMax Ieee.placeholder
        (ieee_placeholder_inBounds regionMin regionMax h1 h2 h3 h4) _ 0 rest
  obtain ⟨rest, rfl⟩ := key
  exact ⟨rest, rfl, List.cons_ne_nil _ _, by simp⟩

end IeeeClaims2

section IeeeForce

variable {F : Type} [LinearOrderedField F]

open FloatVal

/-- On two dots the float force loop runs the pair body once, for the pair
0, 1. -/
theorem ieee_integrate_two (sqrt : F → F) (k : FloatVal F) (extent : ImVec2 (FloatVal F))
    (a b : dot_t (FloatVal F)) :
    Ieee.integrate sqrt k extent [a, b] = Ieee.pairStep sqrt k extent 0 1 [a, b] := by
  have hlen := ieee_pairStep_length sqrt k extent 0 1 [a, b]
  simp [Ieee.integrate, Ieee.outerLoop, Ieee.innerLoop, hlen]

/-- The temporary dot and a finite dot of charge 5 at (100,100), constant 1,
extent 0 by 600: one frame from rest divides 0 by 0. -/
theorem ieee_frame_zero_extent (sqrt : F → F) (hs : IsSqrt sqrt) :
    Ieee.integrate sqrt (fin 1) ⟨fin 0, fin 600⟩
        [Ieee.placeholder, Ieee.liftDot (restingDot 5 100 100)] =
      [⟨fin 0, ⟨nan, fin (-50)⟩, ⟨nan, fin 0⟩, ⟨nan, fin 0⟩⟩,
        ⟨fin 5, ⟨nan, fin 100⟩, ⟨nan, fin 0⟩, ⟨nan, fin 0⟩⟩] := by
  have f : (20 : F) < sqrt 45000 := hs.lt_sqrt (by norm_num) (by norm_num)
  have f0 : sqrt 45000 ≠ 0 := ne_of_gt (lt_trans (by norm_num) f)
  have f1 : ¬ sqrt 45000 ≤ 20 := not_le.mpr f
  rw [ieee_integrate_two]
  norm_num [Ieee.pairStep, Ieee.placeholder, Ieee.liftDot, Ieee.liftVec, restingDot,
    Ieee.vecLength, Ieee.pairVector, Ieee.coulombsForce, Ieee.isVecOrientMinus, Ieee.vecSub,
    Ieee.vecAdd, Ieee.vecNeg, Ieee.addAssign, Ieee.subAssign, Ieee.mulAssign, Ieee.divAssign,
    FloatVal.add, FloatVal.neg, FloatVal.mul, FloatVal.div, FloatVal.abs, FloatVal.le,
    FloatVal.lt, FloatVal.sqrtVal, FloatVal.infTimes, f0, f1]

/-- The temporary dot and a dot at infinite position: the pair body multiplies
infinity by the zero force. -/
theorem ieee_pair_infinite_position (sqrt : F → F) :
    Ieee.pairStep sqrt (fin 1) ⟨fin 800, fin 600⟩ 0 1
        [Ieee.placeholder,
          ⟨fin 20000000000000000000, ⟨pinf, pinf⟩, ⟨pinf, pinf⟩, ⟨pinf, pinf⟩⟩] =
      [⟨fin 0, ⟨nan, nan⟩, ⟨nan, nan⟩, ⟨nan, nan⟩⟩,
        ⟨fin 20000000000000000000, ⟨nan, nan⟩, ⟨nan, nan⟩, ⟨nan, nan⟩⟩] := by
  norm_num [Ieee.pairStep, Ieee.placeholder, Ieee.vecLength, Ieee.pairVector,
    Ieee.coulombsForce, Ieee.isVecOrientMinus, Ieee.vecSub, Ieee.vecAdd, Ieee.vecNeg,
    Ieee.addAssign, Ieee.subAssign, Ieee.mulAssign, Ieee.divAssign, FloatVal.add,
    FloatVal.neg, FloatVal.mul, FloatVal.div, FloatVal.abs, FloatVal.le, FloatVal.lt,
    FloatVal.sqrtVal, FloatVal.infTimes]

end IeeeForce

section IeeeClaims3

variable {F : Type} [LinearOrderedField F]

open FloatVal

/-- Witness of C8 (amended): the temporary dot paired with a finite dot of
charge 5 at (100,100), constant 3, extent 800 by 600. -/
theorem ieee_zero_charge_no_force_witness :
    ((0 : ℕ) < 1 ∧
      ([Ieee.placeholder, Ieee.liftDot (restingDot (5 : ℝ) 100 100)][0].value = fin 0 ∨
        [Ieee.placeholder, Ieee.liftDot (restingDot (5 : ℝ) 100 100)][1].value = fin 0) ∧
      FloatVal.lt (fin 20) (Ieee.vecLength Real.sqrt (Ieee.vecSub
        [Ieee.placeholder, Ieee.liftDot (restingDot (5 : ℝ) 100 100)][1].position
        [Ieee.placeholder, Ieee.liftDot (restingDot (5 : ℝ) 100 100)][0].position)) ∧
      IsFinite (fin (3 : ℝ)) ∧
      Ieee.VecInRange
        [Ieee.placeholder, Ieee.liftDot (restingDot (5 : ℝ) 100 100)][0].position ∧
      Ieee.VecInRange
        [Ieee.placeholder, Ieee.liftDot (restingDot (5 : ℝ) 100 100)][1].position) ∧
    (Ieee.coulombsForce (fin (3 : ℝ))
        [Ieee.placeholder, Ieee.liftDot (restingDot (5 : ℝ) 100 100)][0].value
        [Ieee.placeholder, Ieee.liftDot (restingDot (5 : ℝ) 100 100)][1].value
        (Ieee.vecLength Real.sqrt (Ieee.vecSub
          [Ieee.placeholder, Ieee.liftDot (restingDot (5 : ℝ) 100 100)][1].position
          [Ieee.placeholder, Ieee.liftDot (restingDot (5 : ℝ) 100 100)][0].position)) = fin 0 ∧
      ((Ieee.pairStep Real.sqrt (fin (3 : ℝ)) ⟨fin 800, fin 600⟩ 0 1
          [Ieee.placeholder, Ieee.liftDot (restingDot (5 : ℝ) 100 100)])[0]?).map
            (fun d => d.acceleration) =
        some [Ieee.placeholder, Ieee.liftDot (restingDot (5 : ℝ) 100 100)][0].acceleration ∧
      ((Ieee.pairStep Real.sqrt (fin (3 : ℝ)) ⟨fin 800, fin 600⟩ 0 1
          [Ieee.placeholder, Ieee.liftDot (restingDot (5 : ℝ) 100 100)])[1]?).map
            (fun d => d.acceleration) =
        some [Ieee.placeholder, Ieee.liftDot (restingDot (5 : ℝ) 100 100)][1].acceleration) := by
  have hzero : [Ieee.placeholder, Ieee.liftDot (restingDot (5 : ℝ) 100 100)][0].value = fin 0 ∨
      [Ieee.placeholder, Ieee.liftDot (restingDot (5 : ℝ) 100 100)][1].value = fin 0 :=
    Or.inl rfl
  have hfar : FloatVal.lt (fin 20) (Ieee.vecLength Real.sqrt (Ieee.vecSub
      [Ieee.placeholder, Ieee.liftDot (restingDot (5 : ℝ) 100 100)][1].position
      [Ieee.placeholder, Ieee.liftDot (restingDot (5 : ℝ) 100 100)][0].position)) := by
    have h := ieee_vecLength_lift Real.sqrt (restingDot (5 : ℝ) 100 100).position
      (placeholder : dot_t ℝ).position
    have hlt : (20 : ℝ) < vecLength Real.sqrt
        (ImVec2.sub (restingDot (5 : ℝ) 100 100).position (placeholder : dot_t ℝ).position) := by
      apply isSqrt_real.lt_sqrt (by norm_num)
      norm_num [restingDot, placeholder, ImVec2.sub, ImVec2.add, ImVec2.neg]
    show FloatVal.lt (fin 20) (Ieee.vecLength Real.sqrt (Ieee.vecSub
      (Ieee.liftVec (restingDot (5 : ℝ) 100 100).position)
      (Ieee.liftVec (placeholder : dot_t ℝ).position)))
    rw [h]
    exact hlt
  have hp0 : Ieee.VecInRange
      [Ieee.placeholder, Ieee.liftDot (restingDot (5 : ℝ) 100 100)][0].position := by
    constructor <;> norm_num [Ieee.placeholder, FloatVal.AbsLe, abs_le]
  have hp1 : Ieee.VecInRange
      [Ieee.placeholder, Ieee.liftDot (restingDot (5 : ℝ) 100 100)][1].position := by
    constructor <;>
      norm_num [Ieee.liftDot, Ieee.liftVec, restingDot, FloatVal.AbsLe, abs_le]
  exact ⟨⟨by decide, hzero, hfar, trivial, hp0, hp1⟩,
    ieee_zero_charge_no_force Real.sqrt (fin 3) ⟨fin 800, fin 600⟩
      [Ieee.placeholder, Ieee.liftDot (restingDot (5 : ℝ) 100 100)] 0 1
      (by decide) (by simp) (by simp) hzero hfar trivial trivial trivial hp0 hp1
      ⟨by simp, by simp⟩ ⟨by simp, by simp⟩⟩

/-- C8 (counterexample). The temporary dot (charge 0) paired with a dot whose
position overflowed to plus infinity in both axes, constant 1, extent 800 by
600.  The pair is not colliding (r is plus infinity) and the force magnitude is
0, yet the pair body computes infinity times 0 and both accelerations become
NaN. -/
theorem ieee_zero_charge_infinite_position :
    ((Ieee.placeholder : dot_t (FloatVal ℝ)).value = fin 0 ∧
      FloatVal.lt (fin (20 : ℝ)) (Ieee.vecLength Real.sqrt (Ieee.vecSub ⟨pinf, pinf⟩
        (Ieee.placeholder : dot_t (FloatVal ℝ)).position)) ∧
      (fin (800 : ℝ) ≠ fin 0 ∧ fin (600 : ℝ) ≠ fin 0)) ∧
    Ieee.coulombsForce (fin (1 : ℝ)) (fin 0) (fin 20000000000000000000)
      (Ieee.vecLength Real.sqrt (Ieee.vecSub ⟨pinf, pinf⟩
        (Ieee.placeholder : dot_t (FloatVal ℝ)).position)) = fin 0 ∧
    Ieee.pairStep Real.sqrt (fin (1 : ℝ)) ⟨fin 800, fin 600⟩ 0 1
        [Ieee.placeholder,
          ⟨fin 20000000000000000000, ⟨pinf, pinf⟩, ⟨pinf, pinf⟩, ⟨pinf, pinf⟩⟩] =
      [⟨fin 0, ⟨nan, nan⟩, ⟨nan, nan⟩, ⟨nan, nan⟩⟩,
        ⟨fin 20000000000000000000, ⟨nan, nan⟩, ⟨nan, nan⟩, ⟨nan, nan⟩⟩] ∧
    (⟨nan, nan⟩ : ImVec2 (FloatVal ℝ)) ≠
      (Ieee.placeholder : dot_t (FloatVal ℝ)).acceleration ∧
    (⟨nan, nan⟩ : ImVec2 (FloatVal ℝ)) ≠ ⟨pinf, pinf⟩ := by
  have hlen : Ieee.vecLength Real.sqrt (Ieee.vecSub ⟨pinf, pinf⟩
      (Ieee.placeholder : dot_t (FloatVal ℝ)).position) = pinf := by
    simp [Ieee.vecLength, Ieee.vecSub, Ieee.vecAdd, Ieee.vecNeg, Ieee.placeholder,
      FloatVal.add, FloatVal.neg, FloatVal.mul, FloatVal.sqrtVal]
  refine ⟨⟨rfl, ?_, ?_⟩, ?_, ieee_pair_infinite_position Real.sqrt, ?_, ?_⟩
  · rw [hlen]; trivial
  · constructor <;> simp
  · rw [hlen]
    simp [Ieee.coulombsForce, FloatVal.mul, FloatVal.div, FloatVal.abs]
  · simp [Ieee.placeholder]
  · simp

/-- C10 (counterexample). The list after a placement at (100,100) in the space
(0,0)-(800,600) is reached and the window region (0,0)-(0,600) meets the
condition on the viewport, yet the force frame with that extent divides 0 by 0
and the first dot ends with NaN in position, velocity and acceleration: it is
no longer the temporary dot. -/
theorem ieee_placeholder_lost_zero_extent :
    (Ieee.placementStep (⟨fin 0, fin 0⟩ : ImVec2 (FloatVal ℝ)) ⟨fin 800, fin 600⟩
        ⟨[Ieee.placeholder], fin 1, false, true, fin 5, ⟨fin 100, fin 100⟩⟩).dots =
      [Ieee.placeholder, Ieee.liftDot (restingDot 5 100 100)] ∧
    (FloatVal.le (FloatVal.add (fin (0 : ℝ)) (FloatVal.neg (fin 200))) (fin (-50)) ∧
      FloatVal.le (fin (-50 : ℝ)) (FloatVal.add (fin 0) (fin 200)) ∧
      FloatVal.le (fin (-50 : ℝ)) (FloatVal.add (fin 600) (fin 200))) ∧
    Ieee.integrate Real.sqrt (fin (1 : ℝ)) ⟨fin 0, fin 600⟩
        [Ieee.placeholder, Ieee.liftDot (restingDot 5 100 100)] =
      [⟨fin 0, ⟨nan, fin (-50)⟩, ⟨nan, fin 0⟩, ⟨nan, fin 0⟩⟩,
        ⟨fin 5, ⟨nan, fin 100⟩, ⟨nan, fin 0⟩, ⟨nan, fin 0⟩⟩] ∧
    (⟨fin 0, ⟨nan, fin (-50)⟩, ⟨nan, fin 0⟩, ⟨nan, fin 0⟩⟩ : dot_t (FloatVal ℝ)) ≠
      Ieee.placeholder := by
  refine ⟨?_, ⟨?_, ?_, ?_⟩, ieee_frame_zero_extent Real.sqrt isSqrt_real, ?_⟩
  · norm_num [Ieee.placementStep, Ieee.insideSpace, FloatVal.lt, Ieee.liftDot, Ieee.liftVec,
      restingDot]
  · norm_num [FloatVal.le, FloatVal.add, FloatVal.neg]
  · norm_num [FloatVal.le, FloatVal.add]
  · norm_num [FloatVal.le, FloatVal.add]
  · simp [Ieee.placeholder]

/-- Witness of C10 (amended): the list after the first placement at (50,50) in
the space (0,0)-(800,600), followed by a force frame with constant 1 and extent
800 by 600. -/
theorem ieee_placeholder_stays_first_witness :
    (IsSqrt Real.sqrt ∧
      Ieee.Reachable Real.sqrt (Ieee.integrate Real.sqrt (fin (1 : ℝ)) ⟨fin 800, fin 600⟩
        (Ieee.placementStep ⟨fin 0, fin 0⟩ ⟨fin 800, fin 600⟩
          ⟨[Ieee.placeholder], fin 1, false, true, fin 5, ⟨fin 50, fin 50⟩⟩).dots)) ∧
    ∃ rest, Ieee.integrate Real.sqrt (fin (1 : ℝ)) ⟨fin 800, fin 600⟩
        (Ieee.placementStep ⟨fin 0, fin 0⟩ ⟨fin 800, fin 600⟩
          ⟨[Ieee.placeholder], fin 1, false, true, fin 5, ⟨fin 50, fin 50⟩⟩).dots =
        ⟨fin 0, ⟨fin (-50), fin (-50)⟩, ⟨fin 0, fin 0⟩, ⟨fin 0, fin 0⟩⟩ :: rest ∧
      Ieee.integrate Real.sqrt (fin (1 : ℝ)) ⟨fin 800, fin 600⟩
        (Ieee.placementStep ⟨fin 0, fin 0⟩ ⟨fin 800, fin 600⟩
          ⟨[Ieee.placeholder], fin 1, false, true, fin 5, ⟨fin 50, fin 50⟩⟩).dots ≠ [] ∧
      (Ieee.integrate Real.sqrt (fin (1 : ℝ)) ⟨fin 800, fin 600⟩
        (Ieee.placementStep ⟨fin 0, fin 0⟩ ⟨fin 800, fin 600⟩
          ⟨[Ieee.placeholder], fin 1, false, true, fin 5,
            ⟨fin 50, fin 50⟩⟩).dots).length - 1 = rest.length := by
  have hdots : (Ieee.placementStep (⟨fin 0, fin 0⟩ : ImVec2 (FloatVal ℝ)) ⟨fin 800, fin 600⟩
      ⟨[Ieee.placeholder], fin 1, false, true, fin 5, ⟨fin 50, fin 50⟩⟩).dots =
      [Ieee.placeholder, ⟨fin 5, ⟨fin 50, fin 50⟩, ⟨fin 0, fin 0⟩, ⟨fin 0, fin 0⟩⟩] := by
    norm_num [Ieee.placementStep, Ieee.insideSpace, FloatVal.lt]
  have hfin : ∀ d ∈ (Ieee.placementStep (⟨fin 0, fin 0⟩ : ImVec2 (FloatVal ℝ))
      ⟨fin 800, fin 600⟩
      ⟨[Ieee.placeholder], fin 1, false, true, fin 5, ⟨fin 50, fin 50⟩⟩).dots,
      Ieee.DotFinite d := by
    rw [hdots]
    intro d hd
    simp only [List.mem_cons, List.mem_singleton, List.not_mem_nil, or_false] at hd
    rcases hd with rfl | rfl <;>
      exact ⟨trivial, ⟨trivial, trivial⟩, ⟨trivial, trivial⟩, ⟨trivial, trivial⟩⟩
  have hreach : Ieee.Reachable Real.sqrt (Ieee.integrate Real.sqrt (fin (1 : ℝ))
      ⟨fin 800, fin 600⟩
      (Ieee.placementStep ⟨fin 0, fin 0⟩ ⟨fin 800, fin 600⟩
        ⟨[Ieee.placeholder], fin 1, false, true, fin 5, ⟨fin 50, fin 50⟩⟩).dots) :=
    Ieee.Reachable.integrate 1 800 600 _ (by norm_num) (by norm_num) hfin
      (Ieee.Reachable.spawn ⟨fin 0, fin 0⟩ ⟨fin 800, fin 600⟩
        ⟨[Ieee.placeholder], fin 1, false, true, fin 5, ⟨fin 50, fin 50⟩⟩ Ieee.Reachable.init)
  exact ⟨⟨isSqrt_real, hreach⟩, ieee_placeholder_stays_first Real.sqrt isSqrt_real _ hreach⟩

end IeeeClaims3

section IeeeClaims4

variable {F : Type} [LinearOrderedField F]

open FloatVal

end IeeeClaims4

end Coulomb
